import Mathlib

/-!
Verification development for the GotionGPT chat front-end
(`chainlit_app.py`): a shallow embedding of its input parser
(`parse_input`) and of the per-message turn handler (`handle_message`),
together with theorems about the documented behaviour.

Conventions of the embedding:
* Text is modelled as `List Char`.  Python string values are translated
  with `String.data` on Lean string literals.
* Numbers are modelled exactly, as rationals: Python floats are IEEE
  doubles, but no property proved here depends on rounding, and the
  special values are carried explicitly by `PyFloat`.
* Character classes (`\d`, `str.lower`, whitespace) are modelled over
  the ASCII range, which covers every character class decision the
  program makes on its documented inputs.
* Fallible Python operations are modelled with `Option`/`Except`.
-/

namespace GGpt

/-- Program text: a Python `str` as a list of characters. -/
abbrev Text := List Char

/-- The regex class `\d` (modelled over ASCII: `'0'..'9'`). -/
def isDigitC (c : Char) : Bool := decide (48 ≤ c.toNat ∧ c.toNat ≤ 57)

/-- Lowercase ASCII letters `'a'..'z'` (what the five keywords consist of). -/
def isLetterC (c : Char) : Bool := decide (97 ≤ c.toNat ∧ c.toNat ≤ 122)

/-- Python `str.strip` whitespace (ASCII range). -/
def isSpaceC (c : Char) : Bool :=
  decide (c.toNat = 32 ∨ c.toNat = 9 ∨ c.toNat = 10 ∨ c.toNat = 13 ∨ c.toNat = 11 ∨ c.toNat = 12)

/-- `str.lower` on one character (ASCII range: `'A'..'Z'` shift down by 32,
everything else unchanged; none of the program's character decisions involve
non-ASCII case mapping). -/
def pyLower (c : Char) : Char :=
  if 65 ≤ c.toNat ∧ c.toNat ≤ 90 then Char.ofNat (c.toNat + 32) else c

/-- `re.sub(r"[，、;|]", ",", ·)` on one character: the fixed alternate
delimiters (fullwidth comma U+FF0C, ideographic comma U+3001, semicolon,
pipe) become a plain comma. -/
def toComma (c : Char) : Char :=
  if c = '，' ∨ c = '、' ∨ c = ';' ∨ c = '|' then ',' else c

/-- `clean_text = re.sub(r"[，、;|]", ",", text.lower())`. -/
def normalize (t : Text) : Text := (t.map pyLower).map toComma

/-- Python `str.strip()`: drop whitespace from both ends. -/
def strip (t : Text) : Text :=
  ((t.dropWhile isSpaceC).reverse.dropWhile isSpaceC).reverse

/-- Python `str.split(",")` (single-character separator). -/
def splitComma : Text → List Text
  | [] => [[]]
  | c :: rest =>
    match splitComma rest with
    | h :: t => if c = ',' then [] :: h :: t else (c :: h) :: t
    | [] => [[c]]

/-- Value of one decimal digit character. -/
def digitVal (c : Char) : ℕ := c.toNat - 48

/-- Value of a decimal digit string (most significant first). -/
def digitsToNat (t : Text) : ℕ := t.foldl (fun n c => 10 * n + digitVal c) 0

/-- Decimal rendering of a natural number (Python `str` of a nonnegative
int), with fuel for structural recursion. -/
def natToTextAux : ℕ → ℕ → Text
  | 0, _ => []
  | fuel + 1, n =>
    if n < 10 then [Char.ofNat (48 + n)]
    else natToTextAux fuel (n / 10) ++ [Char.ofNat (48 + n % 10)]

/-- Decimal rendering of a natural number. -/
def natToText (n : ℕ) : Text := natToTextAux (n + 1) n

/-- Boolean list-prefix test (used to model regex literal matching). -/
def prefixOfB : Text → Text → Bool
  | [], _ => true
  | _ :: _, [] => false
  | a :: xs, b :: ys => a = b && prefixOfB xs ys

/-- Boolean substring-occurrence test (`needle` occurs contiguously in the
haystack). -/
def occursInB (needle : Text) : Text → Bool
  | [] => needle.isEmpty
  | c :: rest => prefixOfB needle (c :: rest) || occursInB needle rest

/-- Value of the finite decimal `ip . fp` (integer part, fraction part as
digit strings). -/
def decimalVal (ip fp : Text) : ℚ :=
  (digitsToNat ip : ℚ) + (digitsToNat fp : ℚ) / (10 : ℚ) ^ fp.length

/-- The value space of Python `float`: a finite value (exact, as a
rational), a signed infinity, or NaN. -/
inductive PyFloat where
  | fin : ℚ → PyFloat
  | inf : Bool → PyFloat
  | nan : PyFloat
deriving DecidableEq

/-- One step of Python's numeric-literal digit scanning: consumes
`digit (digit | "_" digit)*`, returning the digits (underscores removed)
and the unconsumed rest.  An underscore not surrounded by digits is left
unconsumed (and will make the overall parse fail). -/
def digitRunGo : Text → (Text × Text)
  | [] => ([], [])
  | [c] => if isDigitC c then ([c], []) else ([], [c])
  | c :: c2 :: rest =>
    if isDigitC c then
      (c :: (digitRunGo (c2 :: rest)).1, (digitRunGo (c2 :: rest)).2)
    else if c = '_' ∧ isDigitC c2 = true then
      (c2 :: (digitRunGo rest).1, (digitRunGo rest).2)
    else ([], c :: c2 :: rest)

/-- Python numeric digit run: starts with a digit, underscores allowed
between digits. -/
def digitRun (t : Text) : Option (Text × Text) :=
  match t with
  | [] => none
  | c :: rest =>
    if isDigitC c then some (digitRunGo (c :: rest)) else none

/-- Mantissa of a Python float literal: `digits [. [digits]]` or
`. digits`; returns integer digits, fraction digits, rest. -/
def parseMantissa (t : Text) : Option (Text × Text × Text) :=
  match digitRun t with
  | some (ip, r) =>
    match r with
    | '.' :: r2 =>
      match digitRun r2 with
      | some (fp, r3) => some (ip, fp, r3)
      | none => some (ip, [], r2)
    | _ => some (ip, [], r)
  | none =>
    match t with
    | '.' :: r2 =>
      match digitRun r2 with
      | some (fp, r3) => some ([], fp, r3)
      | none => none
    | _ => none

/-- Negate when the sign flag is set. -/
def applySign (neg : Bool) (q : ℚ) : ℚ := if neg then -q else q

/-- Apply a decimal exponent (kept in ℕ with an explicit sign so the
definition evaluates by kernel reduction). -/
def applyExp (m : ℚ) (eneg : Bool) (e : ℕ) : ℚ :=
  if eneg then m / (10 : ℚ) ^ e else m * (10 : ℚ) ^ e

/-- Split an optional leading sign: `(negative?, rest)`. -/
def signSplit (t : Text) : Bool × Text :=
  match t with
  | '+' :: r => (false, r)
  | '-' :: r => (true, r)
  | r => (false, r)

/-- The body of `float(str)` on a nonempty stripped text: optional sign;
`inf`, `infinity` or `nan` (case-insensitive), or a finite literal
`mantissa [(e|E) [sign] digits]`.  `none` models `ValueError`. -/
def pyFloatBody (t : Text) : Option PyFloat :=
  if ((signSplit t).2.map pyLower = ("inf").data ∨
      (signSplit t).2.map pyLower = ("infinity").data) then some (.inf (signSplit t).1)
  else if (signSplit t).2.map pyLower = ("nan").data then some .nan
  else
    match parseMantissa (signSplit t).2 with
    | none => none
    | some (ip, fp, rest) =>
      match rest with
      | [] => some (.fin (applySign (signSplit t).1 (decimalVal ip fp)))
      | e :: rest2 =>
        if e = 'e' ∨ e = 'E' then
          match digitRun (signSplit rest2).2 with
          | some (ed, []) =>
            some (.fin (applySign (signSplit t).1
              (applyExp (decimalVal ip fp) (signSplit rest2).1 (digitsToNat ed))))
          | _ => none
        else none

/-- Python `float(str)`: strip whitespace, reject the empty string,
then parse the body. -/
def pyFloat (t0 : Text) : Option PyFloat :=
  match strip t0 with
  | [] => none
  | t => pyFloatBody t

/-! ## The input parser (`parse_input`)

The five field patterns all have the shape
`(kw1|kw2)\D*(\d+(\.\d+)?)`, searched with `re.search` (leftmost match,
alternatives tried in order, greedy repetition).  For this pattern shape
the regex semantics specialize to: scan start positions left to right;
at a position, try each keyword alternative in order as a literal
prefix; after a matched keyword, `\D*\d+` can only skip to the first
digit; `\d+` then takes the maximal digit run and `(\.\d+)?` optionally
takes a dot plus a nonempty maximal digit run.  Group 2 is the number
text. -/

/-- Group 2 of `\D*(\d+(\.\d+)?)` at a fixed start, or `none` when no
digit occurs in the rest of the string: the optional fraction part. -/
def fracPart : Text → Text
  | '.' :: rest =>
    match rest.takeWhile isDigitC with
    | [] => []
    | ds => '.' :: ds
  | _ => []

/-- Group 2 of `\D*(\d+(\.\d+)?)` applied to the text after a matched
keyword. -/
def matchNumber (r : Text) : Option Text :=
  match r.dropWhile (fun c => !(isDigitC c)) with
  | [] => none
  | c :: rest =>
    some ((c :: rest).takeWhile isDigitC ++ fracPart ((c :: rest).dropWhile isDigitC))

/-- Try the keyword alternatives, in regex alternation order, at a fixed
start position; on a keyword match the whole pattern must still match
(a digit must occur later), otherwise the next alternative is tried. -/
def tryAlts : List Text → Text → Option Text
  | [], _ => none
  | kw :: alts, s =>
    if prefixOfB kw s then
      match matchNumber (s.drop kw.length) with
      | some g => some g
      | none => tryAlts alts s
    else tryAlts alts s

/-- `re.search` for one field pattern: scan start positions left to
right, return group 2 of the first full match. -/
def searchFrom (alts : List Text) : Text → Option Text
  | [] => none
  | c :: rest =>
    match tryAlts alts (c :: rest) with
    | some g => some g
    | none => searchFrom alts rest

/-- Keyword alternation of the `Length_pack` pattern `(length|long)`. -/
def kwLengthAlts : List Text := [("length").data, ("long").data]

/-- Keyword alternation of the `Width_pack` pattern `(width|wide)`. -/
def kwWidthAlts : List Text := [("width").data, ("wide").data]

/-- Keyword alternation of the `Height_pack` pattern `(height|tall)`. -/
def kwHeightAlts : List Text := [("height").data, ("tall").data]

/-- Keyword alternation of the `Energy` pattern `(energy|capacity)`. -/
def kwEnergyAlts : List Text := [("energy").data, ("capacity").data]

/-- Keyword alternation of the `Total_Voltage` pattern `(voltage)`. -/
def kwVoltageAlts : List Text := [("voltage").data]

/-- Value of a matched group-2 number text `\d+(\.\d+)?`. -/
def groupVal (g : Text) : ℚ :=
  decimalVal (g.takeWhile isDigitC) ((g.dropWhile isDigitC).drop 1)

/-- `float(match.group(2))` for one field: search the pattern, convert
the captured number.  The captured text always has the shape
`\d+(\.\d+)?`, on which `float` cannot raise (theorem `claim_C8`), so
the `Option` default is never used. -/
def labeledVal (alts : List Text) (s : Text) : Option PyFloat :=
  (searchFrom alts s).map (fun g => (pyFloat g).getD (.fin 0))

/-- The five-field record built by `parse_input` (a Python dict with
fixed keys `Length_pack`, `Width_pack`, `Height_pack`, `Energy`,
`Total_Voltage`). -/
structure PackSpec where
  Length_pack : PyFloat
  Width_pack : PyFloat
  Height_pack : PyFloat
  Energy : PyFloat
  Total_Voltage : PyFloat
deriving DecidableEq

/-- Labeled extraction: the `extracted` dict when `len(extracted) == 5`,
`none` otherwise. -/
def labeledSpec (clean : Text) : Option PackSpec :=
  match labeledVal kwLengthAlts clean, labeledVal kwWidthAlts clean,
        labeledVal kwHeightAlts clean, labeledVal kwEnergyAlts clean,
        labeledVal kwVoltageAlts clean with
  | some a, some b, some c, some d, some e => some ⟨a, b, c, d, e⟩
  | _, _, _, _, _ => none

/-- `[float(x.strip()) for x in clean_text.split(",") if x.strip()]`:
`none` models the `ValueError` raised by the first unparseable piece
(caught by the surrounding `try`). -/
def fallbackNumbers (clean : Text) : Option (List PyFloat) :=
  (((splitComma clean).map strip).filter (fun p => !p.isEmpty)).mapM pyFloat

/-- Fallback positional extraction: exactly five parsed values, in fixed
positional order. -/
def positionalSpec (clean : Text) : Option PackSpec :=
  match fallbackNumbers clean with
  | some [a, b, c, d, e] => some ⟨a, b, c, d, e⟩
  | _ => none

/-- `parse_input`: normalize; labeled extraction if all five fields are
found; otherwise positional fallback; otherwise `None`. -/
def parse_input (text : Text) : Option PackSpec :=
  match labeledSpec (normalize text) with
  | some s => some s
  | none => positionalSpec (normalize text)

/-- Exception-transparent variant of `labeledVal`: `float(match.group(2))`
is *not* inside a `try`, so an unparseable capture would raise
(`Except.error`).  Used to state that `parse_input` never raises. -/
def labeledValE (alts : List Text) (s : Text) : Except Unit (Option PyFloat) :=
  match searchFrom alts s with
  | none => .ok none
  | some g =>
    match pyFloat g with
    | some v => .ok (some v)
    | none => .error ()

/-- Exception-transparent variant of `parse_input`: every place the
Python code could raise is surfaced in `Except`; the fallback's
`ValueError` is caught by the source's `try`, the labeled path's
`float` is not. -/
def parse_inputE (text : Text) : Except Unit (Option PackSpec) := do
  let clean := normalize text
  let a ← labeledValE kwLengthAlts clean
  let b ← labeledValE kwWidthAlts clean
  let c ← labeledValE kwHeightAlts clean
  let d ← labeledValE kwEnergyAlts clean
  let e ← labeledValE kwVoltageAlts clean
  match a, b, c, d, e with
  | some a, some b, some c, some d, some e => pure (some ⟨a, b, c, d, e⟩)
  | _, _, _, _, _ => pure (positionalSpec clean)

/-! ## The per-message turn handler (`handle_message`)

The chat-UI transport (`cl.Message` send/update/remove), the thinking
indicator task, and the two remote services are external collaborators;
the embedding records the orchestrator's calls to them as an ordered
list of `UiEvent`s and takes the remote responses as parameters. -/

/-- A decoded JSON value (`res.json()`); objects carry their key/value
pairs in order (keys unique, as produced by Python's `json`). -/
inductive Json where
  | null : Json
  | jbool : Bool → Json
  | jnum : ℚ → Json
  | jstr : Text → Json
  | jarr : List Json → Json
  | jobj : List (Text × Json) → Json

/-- Python truthiness of a decoded JSON value (`if not predictions`). -/
def Json.truthy : Json → Bool
  | .null => false
  | .jbool b => b
  | .jnum q => decide (q ≠ 0)
  | .jstr s => !s.isEmpty
  | .jarr xs => !xs.isEmpty
  | .jobj fs => !fs.isEmpty

/-- `dict.get(key)` on a decoded JSON object (keys unique). -/
def jlookup (fs : List (Text × Json)) (k : Text) : Option Json :=
  match fs with
  | [] => none
  | (k', v) :: rest => if k' = k then some v else jlookup rest k

/-- `float(x)` on a decoded JSON value: numbers and booleans convert,
strings go through `float(str)`; `None`, lists and dicts raise
`TypeError`.  `none` collapses the `TypeError`/`ValueError` cases, which
the source catches together. -/
def pyFloatOfJson : Json → Option PyFloat
  | .jnum q => some (.fin q)
  | .jbool b => some (.fin (if b then 1 else 0))
  | .jstr s => pyFloat s
  | _ => none

/-- A chat-history role. -/
inductive Role where
  | system : Role
  | user : Role
  | assistant : Role
deriving DecidableEq

/-- One `{"role": ..., "content": ...}` entry of `chat_history`. -/
structure ChatEntry where
  role : Role
  content : Text
deriving DecidableEq

/-- The system prompt seeded into `chat_history` at process start. -/
def systemPrompt : Text :=
  ("You are GotionGPT, an expert AI assistant specialized in battery pack and cell optimization. Explain concepts clearly using plain markdown. Avoid LaTeX formatting (no \\[ \\, \\text\x7b\x7d, \\frac\x7b\x7d). Do NOT use markdown headings (#). Use bold labels like **Battery Pack Specs**, and format formulas like `E = P × t`.").data

/-- The initial value of the process-wide `chat_history`. -/
def chat_history : List ChatEntry := [⟨.system, systemPrompt⟩]

/-- The response of the prediction service's `POST /predict/` call:
status code, raw body text, the decoded JSON body (`none` when
`res.json()` raises), and the rendering of the decode exception for the
error message in that case. -/
structure HttpResponse where
  status : ℕ
  text : Text
  json : Option Json
  jsonErrText : Text

/-- One call to an external collaborator, in order of occurrence.
Message payloads that the claims inspect are rendered exactly
(`sendMsg`, `replaceStatus`); the prediction summary and the two
payload-echoing error messages carry their data unrendered
(`sendPredSummary`, `predInvalid`, `sendDeepseekError`), since no
claim inspects their rendered text. -/
inductive UiEvent where
  | sendMsg : Text → Option Text → UiEvent
  | startIndicator : Text → UiEvent
  | cancelIndicator : UiEvent
  | replaceStatus : Text → UiEvent
  | removeStatus : UiEvent
  | sendPredSummary : PyFloat → PyFloat → PyFloat → PyFloat → UiEvent
  | predInvalid : Json → UiEvent
  | sendDeepseekError : Json → UiEvent

/-- The observable outcome of one turn (spec's `TurnOutcome`;
`unexpectedError` is the dispatcher's catch-all path). -/
inductive TurnOutcome where
  | predictionRendered : TurnOutcome
  | chatReply : TurnOutcome
  | failure : TurnOutcome
  | unexpectedError : TurnOutcome
deriving DecidableEq

/-- What one call of `handle_message` does: the ordered external calls,
the final value of `chat_history`, and the turn outcome. -/
structure TurnResult where
  events : List UiEvent
  history : List ChatEntry
  outcome : TurnOutcome

/-- `"🤖 GotionGPT is analyzing"`. -/
def analyzingContent : Text := ("🤖 GotionGPT is analyzing").data

/-- `"🤖 GotionGPT is thinking"`. -/
def thinkingContent : Text := ("🤖 GotionGPT is thinking").data

/-- The author string of analysis / follow-up messages. -/
def dsAuthor : Text := ("DeepSeek AI").data

/-- The error message shown on a non-200 status. -/
def statusErrorContent (status : ℕ) (body : Text) : Text :=
  ("❌ API call failed.\n\n**Status Code:** ").data ++ natToText status ++
    ("\n```json\n").data ++ body ++ ("\n```").data

/-- The error message shown when `res.json()` raises. -/
def decodeErrorContent (body err : Text) : Text :=
  ("❌ Could not decode JSON.\n```text\n").data ++ body ++
    ("\n```\n**Error:** `").data ++ err ++ ("`").data

/-- `"❌ The API did not return predictions."`. -/
def noPredictionsContent : Text := ("❌ The API did not return predictions.").data

/-- `"🧠 DeepSeek did not return a valid analysis."`. -/
def invalidAnalysisContent : Text := ("🧠 DeepSeek did not return a valid analysis.").data

/-- The synthetic user turn recorded before a string analysis. -/
def syntheticPrompt : Text := ("Analyze this battery pack and predicted cell specs.").data

/-- The reply-shaped error produced when the completion call fails. -/
def followUpErrorContent (err : Text) : Text :=
  ("❌ DeepSeek follow-up failed:\n```text\n").data ++ err ++ ("```").data

/-- The dispatcher catch-all message, naming the failure's kind. -/
def unexpectedContent (excName : Text) : Text :=
  ("⚠️ Unexpected error: `").data ++ excName ++ ("`\nPlease try again or check your server logs.").data

/-- Key `"predictions"`. -/
def predictionsKey : Text := ("predictions").data

/-- Key `"deepseek_analysis"`. -/
def deepseekKey : Text := ("deepseek_analysis").data

/-- Key `"message"`. -/
def messageKey : Text := ("message").data

/-- Key `"Length_cell"`. -/
def lengthCellKey : Text := ("Length_cell").data

/-- Key `"Width_cell"`. -/
def widthCellKey : Text := ("Width_cell").data

/-- Key `"Height_cell"`. -/
def heightCellKey : Text := ("Height_cell").data

/-- Key `"Power_density"`. -/
def powerDensityKey : Text := ("Power_density").data

/-- The two events every prediction turn starts with: send the
"analyzing" status message, start the thinking-indicator task on it. -/
def preEvents : List UiEvent :=
  [.sendMsg analyzingContent none, .startIndicator analyzingContent]

/-- The four `float(predictions.get(key, 0))` coercions; `none` when any
raises (`TypeError`/`ValueError`), taking the invalid-data path. -/
def coerceCell (ps : List (Text × Json)) : Option (PyFloat × PyFloat × PyFloat × PyFloat) :=
  match pyFloatOfJson ((jlookup ps lengthCellKey).getD (.jnum 0)),
        pyFloatOfJson ((jlookup ps widthCellKey).getD (.jnum 0)),
        pyFloatOfJson ((jlookup ps heightCellKey).getD (.jnum 0)),
        pyFloatOfJson ((jlookup ps powerDensityKey).getD (.jnum 0)) with
  | some l, some w, some h, some pd => some (l, w, h, pd)
  | _, _, _, _ => none

/-- Classification of the body's `deepseek_analysis` field after the
summary is rendered: a string appends the synthetic pair to history and
is sent as a "DeepSeek AI" message; a dict with a `message` key sends
the error-labeled message; anything else sends the generic notice.
Returns (events, new history). -/
def analysisStage (deepseek : Json) (hist : List ChatEntry) :
    List UiEvent × List ChatEntry :=
  match deepseek with
  | .jstr s =>
    ([.sendMsg s (some dsAuthor)],
     hist ++ [⟨.user, syntheticPrompt⟩, ⟨.assistant, s⟩])
  | .jobj ds =>
    match jlookup ds messageKey with
    | some m => ([.sendDeepseekError m], hist)
    | none => ([.sendMsg invalidAnalysisContent none], hist)
  | _ => ([.sendMsg invalidAnalysisContent none], hist)

/-- The prediction turn after a decoded 200 body `data`
(source lines 119-159): `data.get` on a non-object raises
`AttributeError`, reaching the dispatcher catch-all; otherwise require
truthy `predictions`, coerce the four cell fields, remove the status
message, emit the summary, then classify `deepseek_analysis`
(defaulting to the *empty string* when absent). -/
def predictionBody (data : Json) (hist : List ChatEntry) : TurnResult :=
  match data with
  | .jobj fs =>
    if !((jlookup fs predictionsKey).getD .null).truthy then
      ⟨preEvents ++ [.cancelIndicator, .replaceStatus noPredictionsContent], hist, .failure⟩
    else
      match jlookup fs predictionsKey with
      | some (.jobj ps) =>
        match coerceCell ps with
        | none =>
          ⟨preEvents ++ [.cancelIndicator, .predInvalid (.jobj ps)], hist, .failure⟩
        | some (l, w, h, pd) =>
          match analysisStage ((jlookup fs deepseekKey).getD (.jstr [])) hist with
          | (evs, hist') =>
            ⟨preEvents ++ [.cancelIndicator, .removeStatus, .sendPredSummary l w h pd] ++ evs,
             hist', .predictionRendered⟩
      | _ =>
        ⟨preEvents ++ [.sendMsg (unexpectedContent (("AttributeError").data)) none],
         hist, .unexpectedError⟩
  | _ =>
    ⟨preEvents ++ [.sendMsg (unexpectedContent (("AttributeError").data)) none],
     hist, .unexpectedError⟩

/-- The HTTP stage of the prediction turn: decode the body on 200,
otherwise fail with the raw-body decode error. -/
def parseBodyStage (res : HttpResponse) (hist : List ChatEntry) : TurnResult :=
  match res.json with
  | none =>
    ⟨preEvents ++ [.cancelIndicator,
       .replaceStatus (decodeErrorContent res.text res.jsonErrText)], hist, .failure⟩
  | some data => predictionBody data hist

/-- The Prediction Orchestrator (source lines 96-159), given the
response of the posted `PackSpec`: `if status != 200` stop the
indicator, replace the status message with the status-code error and
end the turn as a failure; otherwise parse the body. -/
def predictionTurn (_spec : PackSpec) (res : HttpResponse) (hist : List ChatEntry) : TurnResult :=
  if res.status ≠ 200 then
    ⟨preEvents ++ [.cancelIndicator,
       .replaceStatus (statusErrorContent res.status res.text)], hist, .failure⟩
  else parseBodyStage res hist

/-- The Conversation Orchestrator (source lines 162-187): append the
stripped text as a user turn, run the completion call on the whole
history; on success append the reply, on failure format the error as
the reply; always cancel the indicator and remove the status message
before sending the reply as a "DeepSeek AI" message. -/
def followUpTurn (msgText : Text) (completion : List ChatEntry → Except Text Text)
    (hist : List ChatEntry) : TurnResult :=
  match completion (hist ++ [⟨.user, strip msgText⟩]) with
  | .ok reply =>
    ⟨[.sendMsg thinkingContent none, .startIndicator thinkingContent,
      .cancelIndicator, .removeStatus, .sendMsg reply (some dsAuthor)],
     (hist ++ [⟨.user, strip msgText⟩]) ++ [⟨.assistant, reply⟩], .chatReply⟩
  | .error err =>
    ⟨[.sendMsg thinkingContent none, .startIndicator thinkingContent,
      .cancelIndicator, .removeStatus, .sendMsg (followUpErrorContent err) (some dsAuthor)],
     hist ++ [⟨.user, strip msgText⟩], .chatReply⟩

/-- The external collaborators of one turn: the prediction service and
the completion service. -/
structure TurnEnv where
  predict : PackSpec → HttpResponse
  completion : List ChatEntry → Except Text Text

/-- The Turn Dispatcher `handle_message`: classify the message; a
`PackSpec` runs the prediction turn against the posted spec's response,
anything else runs the follow-up turn. -/
def handle_message (msgText : Text) (env : TurnEnv) (hist : List ChatEntry) : TurnResult :=
  match parse_input msgText with
  | some spec => predictionTurn spec (env.predict spec) hist
  | none => followUpTurn msgText env.completion hist

/-! ## Auxiliary definitions used by the statements -/

/-- A number text of the exact shape `\d+(\.\d+)?` that a field pattern
captures: a nonempty digit run, optionally a dot and a nonempty digit
run. -/
def numOkB (n : Text) : Bool :=
  match n.takeWhile isDigitC, n.dropWhile isDigitC with
  | [], _ => false
  | _ :: _, [] => true
  | _ :: _, c :: e => c = '.' && !e.isEmpty && e.all isDigitC

/-- `defeatsB kw seg` guarantees (for an all-letter `kw`) that `kw` is
not a prefix of `seg ++ ' ' :: R` for any `R`: either the mismatch is
already inside `seg`, or `kw` is longer than `seg` and would have to
match its letter against the space. -/
def defeatsB (kw seg : Text) : Bool :=
  if kw.length ≤ seg.length then !(prefixOfB kw seg) else true

/-- The five keyword alternations, indexed in the fixed field order
(length, width, height, energy, voltage). -/
def fieldAlts : Fin 5 → List Text :=
  ![kwLengthAlts, kwWidthAlts, kwHeightAlts, kwEnergyAlts, kwVoltageAlts]

/-- A family of labeled-field texts: each field is written as a chosen
keyword, a space, and a number, and the fields appear in the order
given by `l`, separated by spaces (with a trailing space). -/
def joinB (ch nums : Fin 5 → Text) : List (Fin 5) → Text
  | [] => []
  | i :: rest => ch i ++ (' ' :: (nums i ++ (' ' :: joinB ch nums rest)))

/-- The number of role-`system` entries in a history. -/
def countSystem (h : List ChatEntry) : ℕ :=
  h.countP (fun e => decide (e.role = Role.system))

/-- Whether the event list contains the generic
"did not return a valid analysis" notice. -/
def mentionsInvalidAnalysis (es : List UiEvent) : Bool :=
  es.any (fun e =>
    match e with
    | .sendMsg c _ => decide (c = invalidAnalysisContent)
    | _ => false)

/-! ## Concrete fixtures for witnesses and counterexamples -/

/-- A concrete parsed spec (the spec's worked example). -/
def spec0 : PackSpec := ⟨.fin 1000, .fin 1600, .fin 1500, .fin 60, .fin 400⟩

/-- A well-formed `predictions` object. -/
def predsOk : List (Text × Json) :=
  [(lengthCellKey, .jnum 220), (widthCellKey, .jnum 80),
   (heightCellKey, .jnum 100), (powerDensityKey, .jnum (35 / 2))]

/-- A 201 response with a perfectly well-formed body. -/
def res201 : HttpResponse :=
  ⟨201, ("created").data,
   some (.jobj [(predictionsKey, .jobj predsOk)]), []⟩

/-- A plain 404 response. -/
def res404 : HttpResponse := ⟨404, ("not found").data, none, ("x").data⟩

/-- A 200 response whose body fails to decode as JSON. -/
def res200bad : HttpResponse :=
  ⟨200, ("<html>").data, none, ("Expecting value").data⟩

/-- A 500 response. -/
def res500 : HttpResponse :=
  ⟨500, ("Internal Server Error").data, none, ("x").data⟩

/-- A 200 response with valid predictions and no `deepseek_analysis`
field at all. -/
def resAbsent : HttpResponse :=
  ⟨200, ("ok").data, some (.jobj [(predictionsKey, .jobj predsOk)]), []⟩

/-- `"Great pack!"`. -/
def greatPack : Text := ("Great pack!").data

/-- A 200 response with valid predictions and the string analysis
`"Great pack!"`. -/
def resGreat : HttpResponse :=
  ⟨200, ("ok").data,
   some (.jobj [(predictionsKey, .jobj predsOk), (deepseekKey, .jstr greatPack)]), []⟩

/-- A 200 response with valid predictions and a `deepseek_analysis`
field of unrecognized shape (a number). -/
def resNum : HttpResponse :=
  ⟨200, ("ok").data,
   some (.jobj [(predictionsKey, .jobj predsOk), (deepseekKey, .jnum 3)]), []⟩

/-- A turn environment whose completion call fails. -/
def envErr : TurnEnv := ⟨fun _ => res500, fun _ => .error ("boom").data⟩

/-- A turn environment whose completion call succeeds. -/
def envOk : TurnEnv := ⟨fun _ => res500, fun _ => .ok ("sure").data⟩

/-- The spec's positional example text. -/
def csvText : Text := ("1000, 1600, 1500, 60, 400").data

/-- A labeled text with a minus sign between a keyword and its number. -/
def negLabeledText : Text :=
  ("length -1000 width 1600 height 1500 energy 60 voltage 400").data

/-- A positional text with negative numbers. -/
def negCsvText : Text := ("-1, -2.5, 3, 4, 5").data

/-- A non-spec follow-up text. -/
def helloText : Text := ("hello").data

/-- The primary keyword of each field (the first regex alternative). -/
def kwPrimary : Fin 5 → Text :=
  ![("length").data, ("width").data, ("height").data, ("energy").data, ("voltage").data]

/-- The spec's example numbers, as digit texts, in field order. -/
def nums5 : Fin 5 → Text :=
  ![("1000").data, ("1600").data, ("1500").data, ("60").data, ("400").data]

/-- The five fields in reversed order (the spec's reordered example). -/
def ordRev : List (Fin 5) := [4, 3, 2, 1, 0]

/-! ## Basic lemmas about the text primitives -/

theorem prefixOfB_self_append (n r : Text) : prefixOfB n (n ++ r) = true := by
  induction n with
  | nil => rfl
  | cons a t ih => simp [prefixOfB, ih]

theorem occursInB_append_left (x n y : Text) : occursInB n (x ++ (n ++ y)) = true := by
  induction x with
  | nil =>
    cases n with
    | nil => cases y <;> simp [occursInB, prefixOfB]
    | cons a t =>
      have := prefixOfB_self_append (a :: t) y
      simp only [List.cons_append] at this
      simp [occursInB, this]
  | cons c x' ih => simp [occursInB, ih]

theorem map_eq_self_of {f : Char → Char} : ∀ {t : Text}, (∀ c ∈ t, f c = c) → t.map f = t := by
  intro t h
  induction t with
  | nil => rfl
  | cons a t ih =>
    simp only [List.map_cons]
    rw [h a (by simp), ih (fun c hc => h c (by simp [hc]))]

theorem takeWhile_append_all {p : Char → Bool} {d : Text} (r : Text)
    (h : ∀ c ∈ d, p c = true) : (d ++ r).takeWhile p = d ++ r.takeWhile p := by
  induction d with
  | nil => rfl
  | cons a t ih =>
    have ha := h a (by simp)
    have iht := ih (fun c hc => h c (by simp [hc]))
    simp [List.takeWhile_cons, ha, iht]

theorem dropWhile_append_all {p : Char → Bool} {d : Text} (r : Text)
    (h : ∀ c ∈ d, p c = true) : (d ++ r).dropWhile p = r.dropWhile p := by
  induction d with
  | nil => rfl
  | cons a t ih =>
    simp only [List.cons_append, List.dropWhile_cons, h a (by simp)]
    exact ih (fun c hc => h c (by simp [hc]))

theorem takeWhile_eq_self_of {p : Char → Bool} {t : Text}
    (h : ∀ c ∈ t, p c = true) : t.takeWhile p = t := by
  have := takeWhile_append_all (p := p) (d := t) [] h
  simpa using this

theorem dropWhile_eq_self_of {p : Char → Bool} {t : Text}
    (h : ∀ c ∈ t, p c = false) : t.dropWhile p = t := by
  induction t with
  | nil => rfl
  | cons a t ih =>
    simp only [List.dropWhile_cons, h a (by simp)]
    simp [ih (fun c hc => h c (by simp [hc]))]

theorem dropWhile_head_false {p : Char → Bool} :
    ∀ {t : Text} {c r}, t.dropWhile p = c :: r → p c = false := by
  intro t
  induction t with
  | nil => intro c r h; simp [List.dropWhile] at h
  | cons a t ih =>
    intro c r h
    rw [List.dropWhile_cons] at h
    by_cases ha : p a
    · rw [if_pos ha] at h; exact ih h
    · rw [if_neg ha] at h
      cases h
      simpa using ha

theorem mem_takeWhile_sat {p : Char → Bool} :
    ∀ {t : Text} {c}, c ∈ t.takeWhile p → p c = true := by
  intro t
  induction t with
  | nil => intro c h; simp [List.takeWhile] at h
  | cons a t ih =>
    intro c h
    rw [List.takeWhile_cons] at h
    by_cases ha : p a
    · rw [if_pos ha] at h
      rcases List.mem_cons.mp h with rfl | h
      · exact ha
      · exact ih h
    · rw [if_neg ha] at h; simp at h

theorem strip_eq_self_of {t : Text} (h : ∀ c ∈ t, isSpaceC c = false) : strip t = t := by
  unfold strip
  rw [dropWhile_eq_self_of h,
      dropWhile_eq_self_of (fun c hc => h c (List.mem_reverse.mp hc)),
      List.reverse_reverse]

theorem isDigit_not_letter {c : Char} (h : isDigitC c = true) : isLetterC c = false := by
  have h' := of_decide_eq_true h
  simp only [isLetterC, decide_eq_false_iff_not]
  omega

theorem isDigit_not_space {c : Char} (h : isDigitC c = true) : isSpaceC c = false := by
  have h' := of_decide_eq_true h
  simp only [isSpaceC, decide_eq_false_iff_not]
  omega

theorem pyLower_eq_self_of {c : Char} (h : c.toNat < 65 ∨ 90 < c.toNat) : pyLower c = c := by
  unfold pyLower
  rw [if_neg]
  omega

theorem toComma_eq_self_of {c : Char} (h1 : c.toNat ≠ 65292) (h2 : c.toNat ≠ 12289)
    (h3 : c.toNat ≠ 59) (h4 : c.toNat ≠ 124) : toComma c = c := by
  unfold toComma
  rw [if_neg]
  rintro (rfl | rfl | rfl | rfl)
  · exact h1 rfl
  · exact h2 rfl
  · exact h3 rfl
  · exact h4 rfl

/-! ## Lemmas about captured number texts -/

theorem numOk_structure {n : Text} (h : numOkB n = true) :
    n.takeWhile isDigitC ≠ [] ∧
    (n.dropWhile isDigitC = [] ∨
      ∃ f, f ≠ [] ∧ (∀ c ∈ f, isDigitC c = true) ∧ n.dropWhile isDigitC = '.' :: f) := by
  unfold numOkB at h
  split at h
  · simp at h
  · next heq1 heq2 => exact ⟨by simp [heq1], Or.inl heq2⟩
  · next c e heq1 heq2 =>
    simp only [Bool.and_eq_true, decide_eq_true_eq, Bool.not_eq_true', List.isEmpty_eq_false,
      List.all_eq_true] at h
    obtain ⟨⟨hc, he⟩, hall⟩ := h
    exact ⟨by simp [heq1], Or.inr ⟨e, he, hall, by rw [heq2, hc]⟩⟩

theorem numOk_build {D F : Text} (hD : D ≠ []) (hDd : ∀ c ∈ D, isDigitC c = true)
    (hF : F = [] ∨ ∃ ds, ds ≠ [] ∧ (∀ c ∈ ds, isDigitC c = true) ∧ F = '.' :: ds) :
    numOkB (D ++ F) = true := by
  have htake : (D ++ F).takeWhile isDigitC = D := by
    rcases hF with rfl | ⟨ds, _, _, rfl⟩
    · simpa using takeWhile_eq_self_of hDd
    · rw [takeWhile_append_all _ hDd]
      simp [List.takeWhile_cons, isDigitC]
  have hdrop : (D ++ F).dropWhile isDigitC = F := by
    rcases hF with rfl | ⟨ds, _, _, rfl⟩
    · have := dropWhile_append_all (d := D) [] hDd
      simpa using this
    · rw [dropWhile_append_all _ hDd]
      simp [List.dropWhile_cons, isDigitC]
  unfold numOkB
  rw [htake, hdrop]
  rcases hF with rfl | ⟨ds, hne, hds, rfl⟩
  · cases D with
    | nil => exact absurd rfl hD
    | cons a D' => rfl
  · cases D with
    | nil => exact absurd rfl hD
    | cons a D' =>
      show (decide ('.' = '.') && !ds.isEmpty && ds.all isDigitC) = true
      simp only [Bool.and_eq_true, decide_eq_true_eq, Bool.not_eq_true', List.isEmpty_eq_false,
        List.all_eq_true]
      exact ⟨⟨trivial, hne⟩, hds⟩

theorem numOk_chars {n : Text} (h : numOkB n = true) :
    ∀ c ∈ n, isDigitC c = true ∨ c = '.' := by
  obtain ⟨hne, hrest⟩ := numOk_structure h
  intro c hc
  rw [← List.takeWhile_append_dropWhile (p := isDigitC) (l := n)] at hc
  rcases List.mem_append.mp hc with hc | hc
  · exact Or.inl (mem_takeWhile_sat hc)
  · rcases hrest with heq | ⟨f, _, hf, heq⟩
    · rw [heq] at hc; simp at hc
    · rw [heq] at hc
      rcases List.mem_cons.mp hc with rfl | hc
      · exact Or.inr rfl
      · exact Or.inl (hf c hc)

theorem digitRunGo_nohit {r : Text}
    (hr : ∀ c r', r = c :: r' → isDigitC c = false ∧ c ≠ '_') :
    digitRunGo r = ([], r) := by
  match r with
  | [] => rfl
  | [c] =>
    obtain ⟨h1, _⟩ := hr c [] rfl
    show (if isDigitC c = true then ([c], ([] : Text)) else ([], [c])) = ([], [c])
    rw [if_neg (by simp [h1])]
  | c :: c2 :: rest =>
    obtain ⟨h1, h2⟩ := hr c (c2 :: rest) rfl
    show (if isDigitC c = true then _ else
      if c = '_' ∧ isDigitC c2 = true then _ else ([], c :: c2 :: rest)) = ([], c :: c2 :: rest)
    rw [if_neg (by simp [h1]), if_neg (by simp [h2])]

theorem digitRunGo_append {d : Text} : ∀ {r : Text}, (∀ c ∈ d, isDigitC c = true) →
    (∀ c r', r = c :: r' → isDigitC c = false ∧ c ≠ '_') →
    digitRunGo (d ++ r) = (d, r) := by
  induction d with
  | nil =>
    intro r _ hr
    exact digitRunGo_nohit hr
  | cons a d' ih =>
    intro r hd hr
    have ha := hd a (by simp)
    have iht := ih (fun c hc => hd c (by simp [hc])) hr
    show digitRunGo (a :: (d' ++ r)) = (a :: d', r)
    cases hdr : d' ++ r with
    | nil =>
      obtain ⟨hd', hr'⟩ := List.append_eq_nil.mp hdr
      subst hd'; subst hr'
      show (if isDigitC a = true then ([a], ([] : Text)) else ([], [a])) = ([a], [])
      rw [if_pos ha]
    | cons b rest =>
      rw [hdr] at iht
      show (if isDigitC a = true then
          (a :: (digitRunGo (b :: rest)).1, (digitRunGo (b :: rest)).2) else _) = (a :: d', r)
      rw [if_pos ha, iht]

theorem digitRun_append {d r : Text} (hne : d ≠ []) (hd : ∀ c ∈ d, isDigitC c = true)
    (hr : ∀ c r', r = c :: r' → isDigitC c = false ∧ c ≠ '_') :
    digitRun (d ++ r) = some (d, r) := by
  cases d with
  | nil => exact absurd rfl hne
  | cons a d' =>
    have ha := hd a (by simp)
    show (if isDigitC a = true then some (digitRunGo (a :: (d' ++ r))) else none) =
      some (a :: d', r)
    rw [if_pos ha,
        show a :: (d' ++ r) = (a :: d') ++ r from rfl,
        digitRunGo_append hd hr]

theorem parseMantissa_digits {d : Text} (hne : d ≠ []) (hd : ∀ c ∈ d, isDigitC c = true) :
    parseMantissa d = some (d, [], []) := by
  have h1 : digitRun d = some (d, []) := by
    have := digitRun_append (r := []) hne hd (by intro c r' h; cases h)
    simpa using this
  unfold parseMantissa
  rw [h1]

theorem parseMantissa_dot {d f : Text} (hdn : d ≠ []) (hd : ∀ c ∈ d, isDigitC c = true)
    (hfn : f ≠ []) (hf : ∀ c ∈ f, isDigitC c = true) :
    parseMantissa (d ++ '.' :: f) = some (d, f, []) := by
  have h1 : digitRun (d ++ '.' :: f) = some (d, '.' :: f) := by
    refine digitRun_append hdn hd ?_
    intro c r' h
    cases h
    exact ⟨by decide, by decide⟩
  have h2 : digitRun f = some (f, []) := by
    have := digitRun_append (r := []) hfn hf (by intro c r' h; cases h)
    simpa using this
  unfold parseMantissa
  rw [h1]
  simp [h2]

theorem signSplit_no_sign {a : Char} {r : Text} (h1 : a ≠ '+') (h2 : a ≠ '-') :
    signSplit (a :: r) = (false, a :: r) := by
  unfold signSplit
  split
  · next heq =>
    injection heq with hh _
    exact absurd hh h1
  · next heq =>
    injection heq with hh _
    exact absurd hh h2
  · rfl

theorem pyFloat_eq_body {t0 : Text} {c : Char} {r : Text} (h : strip t0 = c :: r) :
    pyFloat t0 = pyFloatBody (c :: r) := by
  unfold pyFloat
  rw [h]

theorem pyFloat_numOk {n : Text} (h : numOkB n = true) :
    pyFloat n = some (.fin (groupVal n)) := by
  obtain ⟨hdne, hrest⟩ := numOk_structure h
  have hsplit := List.takeWhile_append_dropWhile (p := isDigitC) (l := n)
  have hdd : ∀ c ∈ n.takeWhile isDigitC, isDigitC c = true := fun c hc => mem_takeWhile_sat hc
  have hchars := numOk_chars h
  have hstrip : strip n = n := by
    refine strip_eq_self_of ?_
    intro c hc
    rcases hchars c hc with hdig | rfl
    · exact isDigit_not_space hdig
    · decide
  obtain ⟨a, n2, hcons⟩ : ∃ a n2, n = a :: n2 := by
    cases hn0 : n with
    | nil =>
      rw [hn0] at hdne
      simp at hdne
    | cons a n2 => exact ⟨a, n2, rfl⟩
  have ha : isDigitC a = true := by
    cases hb : isDigitC a with
    | true => rfl
    | false =>
      rw [hcons, List.takeWhile_cons, if_neg (by simp [hb])] at hdne
      exact absurd rfl hdne
  have hmap : n.map pyLower = n := by
    refine map_eq_self_of ?_
    intro c hc
    rcases hchars c hc with hdig | rfl
    · have := of_decide_eq_true hdig
      exact pyLower_eq_self_of (by omega)
    · exact pyLower_eq_self_of (by decide)
  have hmant : parseMantissa n =
      some (n.takeWhile isDigitC, (n.dropWhile isDigitC).drop 1, []) := by
    rcases hrest with heq | ⟨f, hfn, hf, heq⟩
    · have h2 : n = n.takeWhile isDigitC := by
        conv_lhs => rw [← hsplit, heq, List.append_nil]
      rw [heq]
      show parseMantissa n = some (n.takeWhile isDigitC, [], [])
      conv_lhs => rw [h2]
      exact parseMantissa_digits hdne hdd
    · have h2 : n = n.takeWhile isDigitC ++ '.' :: f := by
        conv_lhs => rw [← hsplit, heq]
      rw [heq]
      show parseMantissa n = some (n.takeWhile isDigitC, f, [])
      conv_lhs => rw [h2]
      exact parseMantissa_dot hdne hdd hfn hf
  have hap : a ≠ '+' := by intro hcontra; rw [hcontra] at ha; exact absurd ha (by decide)
  have ham : a ≠ '-' := by intro hcontra; rw [hcontra] at ha; exact absurd ha (by decide)
  have hbody : pyFloat n = pyFloatBody n := by
    have := @pyFloat_eq_body n a n2 (by rw [hstrip, hcons])
    rw [← hcons] at this
    exact this
  have hsign : signSplit n = (false, n) := by
    rw [hcons]
    exact signSplit_no_sign hap ham
  have hni : ¬(n.map pyLower = ("inf").data ∨ n.map pyLower = ("infinity").data) := by
    rw [hmap]
    rintro (heq | heq)
    · rw [show ("inf").data = ['i', 'n', 'f'] from rfl, hcons] at heq
      injection heq with h1 _
      rw [h1] at ha
      exact absurd ha (by decide)
    · rw [show ("infinity").data = ['i', 'n', 'f', 'i', 'n', 'i', 't', 'y'] from rfl,
        hcons] at heq
      injection heq with h1 _
      rw [h1] at ha
      exact absurd ha (by decide)
  have hnn : ¬(n.map pyLower = ("nan").data) := by
    rw [hmap]
    intro heq
    rw [show ("nan").data = ['n', 'a', 'n'] from rfl, hcons] at heq
    injection heq with h1 _
    rw [h1] at ha
    exact absurd ha (by decide)
  rw [hbody]
  unfold pyFloatBody
  rw [hsign]
  dsimp only
  rw [if_neg hni, if_neg hnn, hmant]
  simp [applySign, groupVal]

theorem numOk_head {n : Text} (h : numOkB n = true) :
    ∃ a n2, n = a :: n2 ∧ isDigitC a = true := by
  obtain ⟨hdne, _⟩ := numOk_structure h
  obtain ⟨a, n2, hcons⟩ : ∃ a n2, n = a :: n2 := by
    cases hn0 : n with
    | nil =>
      rw [hn0] at hdne
      simp at hdne
    | cons a n2 => exact ⟨a, n2, rfl⟩
  refine ⟨a, n2, hcons, ?_⟩
  cases hb : isDigitC a with
  | true => rfl
  | false =>
    rw [hcons, List.takeWhile_cons, if_neg (by simp [hb])] at hdne
    exact absurd rfl hdne

theorem numOk_take_append {n t : Text} (h : numOkB n = true) :
    (n ++ (' ' :: t)).takeWhile isDigitC = n.takeWhile isDigitC ∧
    (n ++ (' ' :: t)).dropWhile isDigitC = n.dropWhile isDigitC ++ (' ' :: t) := by
  obtain ⟨hdne, hrest⟩ := numOk_structure h
  have hdd : ∀ c ∈ n.takeWhile isDigitC, isDigitC c = true := fun c hc => mem_takeWhile_sat hc
  have hsplit := List.takeWhile_append_dropWhile (p := isDigitC) (l := n)
  rcases hrest with heq | ⟨f, hfn, hf, heq⟩
  · have h2 : n = n.takeWhile isDigitC := by
      conv_lhs => rw [← hsplit, heq, List.append_nil]
    constructor
    · conv_lhs => rw [h2]
      rw [takeWhile_append_all _ hdd]
      simp [List.takeWhile_cons, isDigitC]
    · conv_lhs => rw [h2]
      rw [dropWhile_append_all _ hdd, heq]
      simp [List.dropWhile_cons, isDigitC]
  · have h2 : n = n.takeWhile isDigitC ++ '.' :: f := by
      conv_lhs => rw [← hsplit, heq]
    constructor
    · conv_lhs => rw [h2, List.append_assoc]
      rw [takeWhile_append_all _ hdd]
      simp [List.takeWhile_cons, isDigitC]
    · conv_lhs => rw [h2, List.append_assoc]
      rw [dropWhile_append_all _ hdd, heq]
      simp [List.dropWhile_cons, isDigitC]

theorem matchNumber_sp {n t : Text} (h : numOkB n = true) :
    matchNumber (' ' :: (n ++ (' ' :: t))) = some n := by
  obtain ⟨a, n2, hcons, ha⟩ := numOk_head h
  obtain ⟨htake, hdrop⟩ := numOk_take_append (t := t) h
  obtain ⟨hdne, hrest⟩ := numOk_structure h
  have hsplit := List.takeWhile_append_dropWhile (p := isDigitC) (l := n)
  have h1 : (' ' :: (n ++ (' ' :: t))).dropWhile (fun c => !(isDigitC c)) =
      a :: (n2 ++ (' ' :: t)) := by
    rw [List.dropWhile_cons, if_pos (by decide), hcons, List.cons_append,
      List.dropWhile_cons, if_neg (by simp [ha])]
  unfold matchNumber
  rw [h1]
  show some ((a :: (n2 ++ (' ' :: t))).takeWhile isDigitC ++
    fracPart ((a :: (n2 ++ (' ' :: t))).dropWhile isDigitC)) = some n
  rw [show a :: (n2 ++ (' ' :: t)) = n ++ (' ' :: t) by rw [hcons]; rfl, htake, hdrop]
  rcases hrest with heq | ⟨f, hfn, hf, heq⟩
  · have h2 : n = n.takeWhile isDigitC := by
      conv_lhs => rw [← hsplit, heq, List.append_nil]
    rw [heq]
    show some (n.takeWhile isDigitC ++ fracPart (' ' :: t)) = some n
    rw [show fracPart (' ' :: t) = [] from rfl, List.append_nil, ← h2]
  · have h2 : n = n.takeWhile isDigitC ++ '.' :: f := by
      conv_lhs => rw [← hsplit, heq]
    rw [heq]
    show some (n.takeWhile isDigitC ++ fracPart ('.' :: (f ++ (' ' :: t)))) = some n
    have h3 : fracPart ('.' :: (f ++ (' ' :: t))) = '.' :: f := by
      show (match (f ++ (' ' :: t)).takeWhile isDigitC with
        | [] => ([] : Text)
        | ds => '.' :: ds) = '.' :: f
      have h4 : (f ++ (' ' :: t)).takeWhile isDigitC = f := by
        rw [takeWhile_append_all _ hf]
        simp [List.takeWhile_cons, isDigitC]
      rw [h4]
      cases f with
      | nil => exact absurd rfl hfn
      | cons b f' => rfl
    rw [h3, ← h2]

theorem fracPart_cases (q : Text) :
    fracPart q = [] ∨
      ∃ ds, ds ≠ [] ∧ (∀ c ∈ ds, isDigitC c = true) ∧ fracPart q = '.' :: ds := by
  unfold fracPart
  split
  · next rest =>
    cases hq : rest.takeWhile isDigitC with
    | nil => exact Or.inl rfl
    | cons b ds' =>
      refine Or.inr ⟨b :: ds', by simp, ?_, rfl⟩
      intro x hx
      rw [← hq] at hx
      exact mem_takeWhile_sat hx
  · exact Or.inl rfl

theorem matchNumber_numOk {r g : Text} (h : matchNumber r = some g) : numOkB g = true := by
  unfold matchNumber at h
  split at h
  · cases h
  · next c rest heq =>
    have hc : isDigitC c = true := by
      have := dropWhile_head_false heq
      simpa using this
    injection h with h
    subst h
    refine numOk_build ?_ (fun x hx => mem_takeWhile_sat hx) (fracPart_cases _)
    rw [List.takeWhile_cons, if_pos hc]
    simp

theorem groupVal_nonneg (g : Text) : 0 ≤ groupVal g := by
  unfold groupVal decimalVal
  have h1 : (0 : ℚ) ≤ (digitsToNat (g.takeWhile isDigitC) : ℚ) := Nat.cast_nonneg _
  have h2 : (0 : ℚ) ≤ (digitsToNat ((g.dropWhile isDigitC).drop 1) : ℚ) /
      (10 : ℚ) ^ ((g.dropWhile isDigitC).drop 1).length := by
    apply div_nonneg (Nat.cast_nonneg _)
    positivity
  linarith

/-! ## Lemmas about the field-pattern search -/

theorem tryAlts_numOk : ∀ {alts : List Text} {s g : Text},
    tryAlts alts s = some g → numOkB g = true := by
  intro alts
  induction alts with
  | nil =>
    intro s g h
    simp [tryAlts] at h
  | cons kw alts ih =>
    intro s g h
    unfold tryAlts at h
    split at h
    · split at h
      · next g' heq =>
        injection h with h
        subst h
        exact matchNumber_numOk heq
      · exact ih h
    · exact ih h

theorem searchFrom_numOk {alts : List Text} : ∀ {s g : Text},
    searchFrom alts s = some g → numOkB g = true := by
  intro s
  induction s with
  | nil =>
    intro g h
    simp [searchFrom] at h
  | cons c rest ih =>
    intro g h
    unfold searchFrom at h
    split at h
    · next g' heq =>
      injection h with h
      subst h
      exact tryAlts_numOk heq
    · exact ih h

theorem defeatsB_nil {kw : Text} (h : kw ≠ []) : defeatsB kw [] = true := by
  unfold defeatsB
  rw [if_neg]
  intro hc
  exact h (List.length_eq_zero.mp (Nat.le_zero.mp hc))

theorem prefixOfB_false_spill : ∀ {seg kw R : Text}, kw ≠ [] →
    (∀ c ∈ kw, isLetterC c = true) → defeatsB kw seg = true →
    prefixOfB kw (seg ++ (' ' :: R)) = false := by
  intro seg
  induction seg with
  | nil =>
    intro kw R hne hl _
    cases kw with
    | nil => exact absurd rfl hne
    | cons a kt =>
      have ha := hl a (by simp)
      have hs : a ≠ ' ' := by
        intro hc
        rw [hc] at ha
        exact absurd ha (by decide)
      simp [prefixOfB, hs]
  | cons b seg' ih =>
    intro kw R hne hl hd
    cases kw with
    | nil => exact absurd rfl hne
    | cons a kt =>
      by_cases hab : a = b
      · subst hab
        cases kt with
        | nil =>
          exfalso
          unfold defeatsB at hd
          rw [if_pos (by simp)] at hd
          simp [prefixOfB] at hd
        | cons a2 kt2 =>
          have hd' : defeatsB (a2 :: kt2) seg' = true := by
            unfold defeatsB at hd ⊢
            by_cases hlen : (a2 :: kt2).length ≤ seg'.length
            · rw [if_pos hlen]
              rw [if_pos (by simp at hlen ⊢; omega)] at hd
              simp only [prefixOfB, Bool.not_eq_true', Bool.and_eq_false_iff,
                decide_eq_false_iff_not] at hd
              rcases hd with hd | hd
              · simp at hd
              · simp [hd]
            · rw [if_neg hlen]
          have htail := @ih (a2 :: kt2) R (by simp)
            (fun c hc => hl c (List.mem_cons_of_mem _ hc)) hd'
          simp [prefixOfB, htail]
      · simp [prefixOfB, hab]

theorem prefixOfB_false_head {a : Char} {kt : Text} {c : Char} {R : Text}
    (ha : isLetterC a = true) (hc : isLetterC c = false) :
    prefixOfB (a :: kt) (c :: R) = false := by
  have hne : a ≠ c := by
    intro h
    rw [h] at ha
    rw [ha] at hc
    cases hc
  simp [prefixOfB, hne]

theorem tryAlts_none_of : ∀ {alts : List Text} {s : Text},
    (∀ kw ∈ alts, prefixOfB kw s = false) → tryAlts alts s = none := by
  intro alts
  induction alts with
  | nil => intro s _; rfl
  | cons kw alts ih =>
    intro s h
    unfold tryAlts
    rw [if_neg (by simp [h kw (by simp)])]
    exact ih (fun k hk => h k (by simp [hk]))

theorem searchFrom_append : ∀ {x : Text} {alts : List Text} {y : Text},
    (∀ k, k < x.length → tryAlts alts (List.drop k (x ++ y)) = none) →
    searchFrom alts (x ++ y) = searchFrom alts y := by
  intro x
  induction x with
  | nil => intro alts y _; rfl
  | cons c x' ih =>
    intro alts y h
    have h0 := h 0 (by simp)
    simp only [List.drop_zero, List.cons_append] at h0
    have hstep : searchFrom alts ((c :: x') ++ y) = searchFrom alts (x' ++ y) := by
      show (match tryAlts alts (c :: (x' ++ y)) with
        | some g => some g
        | none => searchFrom alts (x' ++ y)) = searchFrom alts (x' ++ y)
      rw [h0]
    rw [hstep]
    exact ih (fun k hk => by
      have := h (k + 1) (by simp at hk ⊢; omega)
      simpa [List.drop_succ_cons] using this)

theorem tryAlts_hit : ∀ {alts : List Text} {kwb n y : Text},
    kwb ∈ alts → kwb ≠ [] → numOkB n = true →
    (∀ kw ∈ alts, kw = kwb ∨ prefixOfB kw (kwb ++ (' ' :: (n ++ (' ' :: y)))) = false) →
    tryAlts alts (kwb ++ (' ' :: (n ++ (' ' :: y)))) = some n := by
  intro alts
  induction alts with
  | nil =>
    intro kwb n y hm
    simp at hm
  | cons a alts ih =>
    intro kwb n y hm hne hn hothers
    by_cases hak : a = kwb
    · subst hak
      unfold tryAlts
      rw [if_pos (prefixOfB_self_append _ _), List.drop_left, matchNumber_sp hn]
    · have hfalse : prefixOfB a (kwb ++ (' ' :: (n ++ (' ' :: y)))) = false := by
        rcases hothers a (by simp) with h | h
        · exact absurd h hak
        · exact h
      unfold tryAlts
      rw [if_neg (by simp [hfalse])]
      refine ih ?_ hne hn (fun kw hk => hothers kw (by simp [hk]))
      rcases List.mem_cons.mp hm with h | h
      · exact absurd h.symm hak
      · exact h

theorem searchFrom_hit {alts : List Text} {kwb n y : Text}
    (hm : kwb ∈ alts) (hne : kwb ≠ []) (hn : numOkB n = true)
    (hothers : ∀ kw ∈ alts, kw = kwb ∨
      prefixOfB kw (kwb ++ (' ' :: (n ++ (' ' :: y)))) = false) :
    searchFrom alts (kwb ++ (' ' :: (n ++ (' ' :: y)))) = some n := by
  obtain ⟨a, kt, rfl⟩ : ∃ a kt, kwb = a :: kt := by
    cases kwb with
    | nil => exact absurd rfl hne
    | cons a kt => exact ⟨a, kt, rfl⟩
  have hta := tryAlts_hit hm hne hn hothers
  show (match tryAlts alts ((a :: kt) ++ (' ' :: (n ++ (' ' :: y)))) with
    | some g => some g
    | none => searchFrom alts (kt ++ (' ' :: (n ++ (' ' :: y))))) = some n
  rw [hta]

theorem searchFrom_skip_block {alts : List Text} {kwb n y : Text}
    (ha : ∀ kw ∈ alts, kw ≠ [] ∧ (∀ c ∈ kw, isLetterC c = true) ∧
      ∀ k, defeatsB kw (kwb.drop k) = true)
    (hn : numOkB n = true) :
    searchFrom alts (kwb ++ (' ' :: (n ++ (' ' :: y)))) = searchFrom alts y := by
  have hx : kwb ++ (' ' :: (n ++ (' ' :: y))) = (kwb ++ (' ' :: (n ++ [' ']))) ++ y := by
    simp
  rw [hx]
  apply searchFrom_append
  intro k hk
  apply tryAlts_none_of
  intro kw hkw
  obtain ⟨hkne, hkl, hkd⟩ := ha kw hkw
  rw [← hx]
  by_cases hklt : k < kwb.length
  · rw [List.drop_append_of_le_length (le_of_lt hklt)]
    exact prefixOfB_false_spill hkne hkl (hkd k)
  · push_neg at hklt
    obtain ⟨m, rfl⟩ : ∃ m, k = kwb.length + m := ⟨k - kwb.length, by omega⟩
    rw [List.drop_append]
    have hm : m < (' ' :: (n ++ [' '])).length := by
      by_contra hge
      push_neg at hge
      have hlen : (kwb ++ (' ' :: (n ++ [' ']))).length ≤ kwb.length + m := by
        rw [List.length_append]
        omega
      omega
    have hz : (' ' :: (n ++ (' ' :: y))) = (' ' :: (n ++ [' '])) ++ y := by simp
    rw [hz, List.drop_append_of_le_length (le_of_lt hm)]
    obtain ⟨c, r', hc⟩ : ∃ c r', (' ' :: (n ++ [' '])).drop m = c :: r' := by
      cases hdm : (' ' :: (n ++ [' '])).drop m with
      | nil =>
        exfalso
        have hlen : (' ' :: (n ++ [' '])).length ≤ m := List.drop_eq_nil_iff.mp hdm
        omega
      | cons c r' => exact ⟨c, r', rfl⟩
    rw [hc]
    have hcm : c ∈ (' ' :: (n ++ [' '])) := (List.drop_subset m _) (by rw [hc]; simp)
    have hcl : isLetterC c = false := by
      rcases List.mem_cons.mp hcm with rfl | hcm2
      · decide
      · rcases List.mem_append.mp hcm2 with hcm3 | hcm3
        · rcases numOk_chars hn c hcm3 with hdig | rfl
          · exact isDigit_not_letter hdig
          · decide
        · have : c = ' ' := by simpa using hcm3
          rw [this]
          decide
    obtain ⟨b, kt, rfl⟩ : ∃ b kt, kw = b :: kt := by
      cases kw with
      | nil => exact absurd rfl hkne
      | cons b kt => exact ⟨b, kt, rfl⟩
    exact prefixOfB_false_head (hkl b (by simp)) hcl

/-- No keyword of one field occurs misaligned inside a keyword of
another field (or inside the other alternative of its own field):
concretely checked for all positions. -/
theorem kwDefeats : ∀ i j : Fin 5, ∀ kw ∈ fieldAlts i, ∀ kwb ∈ fieldAlts j,
    (i ≠ j ∨ kw ≠ kwb) → ∀ k < 9, defeatsB kw (kwb.drop k) = true := by decide

/-- Every keyword is a nonempty all-lowercase-letter text. -/
theorem kwLetters : ∀ i : Fin 5, ∀ kw ∈ fieldAlts i,
    kw ≠ [] ∧ ∀ c ∈ kw, isLetterC c = true := by decide

/-- Every keyword is shorter than 9 characters. -/
theorem kwShort : ∀ j : Fin 5, ∀ kwb ∈ fieldAlts j, kwb.length < 9 := by decide

theorem kwDefeats_all : ∀ i j : Fin 5, ∀ kw ∈ fieldAlts i, ∀ kwb ∈ fieldAlts j,
    (i ≠ j ∨ kw ≠ kwb) → ∀ k, defeatsB kw (kwb.drop k) = true := by
  intro i j kw hkw kwb hkwb hij k
  by_cases hk : k < 9
  · exact kwDefeats i j kw hkw kwb hkwb hij k hk
  · rw [List.drop_eq_nil_of_le (by have := kwShort j kwb hkwb; omega)]
    exact defeatsB_nil (kwLetters i kw hkw).1

theorem searchFrom_joinB {ch nums : Fin 5 → Text}
    (hch : ∀ i, ch i ∈ fieldAlts i) (hnum : ∀ i, numOkB (nums i) = true) :
    ∀ (l : List (Fin 5)) (i : Fin 5), i ∈ l →
      searchFrom (fieldAlts i) (joinB ch nums l) = some (nums i) := by
  intro l
  induction l with
  | nil =>
    intro i hi
    simp at hi
  | cons j rest ih =>
    intro i hi
    show searchFrom (fieldAlts i)
      (ch j ++ (' ' :: (nums j ++ (' ' :: joinB ch nums rest)))) = some (nums i)
    by_cases hij : i = j
    · subst hij
      refine searchFrom_hit (hch i) (kwLetters i _ (hch i)).1 (hnum i) ?_
      intro kw hkw
      by_cases hkwb : kw = ch i
      · exact Or.inl hkwb
      · refine Or.inr (prefixOfB_false_spill (kwLetters i kw hkw).1
          ((kwLetters i kw hkw).2) ?_)
        have := kwDefeats_all i i kw hkw (ch i) (hch i) (Or.inr hkwb) 0
        simpa using this
    · have hskip := @searchFrom_skip_block (fieldAlts i) (ch j)
        (nums j) (joinB ch nums rest)
        (fun kw hkw => ⟨(kwLetters i kw hkw).1, (kwLetters i kw hkw).2,
          fun k => kwDefeats_all i j kw hkw (ch j) (hch j) (Or.inl hij) k⟩)
        (hnum j)
      rw [hskip]
      refine ih i ?_
      rcases List.mem_cons.mp hi with h | h
      · exact absurd h hij
      · exact h

theorem mem_joinB {ch nums : Fin 5 → Text} :
    ∀ {l : List (Fin 5)} {c : Char}, c ∈ joinB ch nums l →
      c = ' ' ∨ ∃ i, i ∈ l ∧ (c ∈ ch i ∨ c ∈ nums i) := by
  intro l
  induction l with
  | nil =>
    intro c hc
    simp [joinB] at hc
  | cons j rest ih =>
    intro c hc
    rw [show joinB ch nums (j :: rest) =
      ch j ++ (' ' :: (nums j ++ (' ' :: joinB ch nums rest))) from rfl] at hc
    rcases List.mem_append.mp hc with h | h
    · exact Or.inr ⟨j, by simp, Or.inl h⟩
    · rcases List.mem_cons.mp h with rfl | h
      · exact Or.inl rfl
      · rcases List.mem_append.mp h with h | h
        · exact Or.inr ⟨j, by simp, Or.inr h⟩
        · rcases List.mem_cons.mp h with rfl | h
          · exact Or.inl rfl
          · rcases ih h with h | ⟨i, hi, hio⟩
            · exact Or.inl h
            · exact Or.inr ⟨i, by simp [hi], hio⟩

theorem normalize_joinB {ch nums : Fin 5 → Text} (hch : ∀ i, ch i ∈ fieldAlts i)
    (hnum : ∀ i, numOkB (nums i) = true) (l : List (Fin 5)) :
    normalize (joinB ch nums l) = joinB ch nums l := by
  unfold normalize
  have hfix : ∀ c ∈ joinB ch nums l, pyLower c = c ∧ toComma c = c := by
    intro c hc
    rcases mem_joinB hc with rfl | ⟨i, _, hio | hio⟩
    · exact ⟨pyLower_eq_self_of (by decide),
        toComma_eq_self_of (by decide) (by decide) (by decide) (by decide)⟩
    · have hl := (kwLetters i _ (hch i)).2 c hio
      have hb := of_decide_eq_true hl
      exact ⟨pyLower_eq_self_of (by omega),
        toComma_eq_self_of (by omega) (by omega) (by omega) (by omega)⟩
    · rcases numOk_chars (hnum i) c hio with hdig | rfl
      · have hb := of_decide_eq_true hdig
        exact ⟨pyLower_eq_self_of (by omega),
          toComma_eq_self_of (by omega) (by omega) (by omega) (by omega)⟩
      · exact ⟨pyLower_eq_self_of (by decide),
          toComma_eq_self_of (by decide) (by decide) (by decide) (by decide)⟩
  rw [map_eq_self_of (fun c hc => (hfix c hc).1),
      map_eq_self_of (fun c hc => (hfix c hc).2)]

/-! ## The labeled value never raises, and its value -/

theorem labeledVal_eq_groupVal {alts : List Text} {s g : Text}
    (h : searchFrom alts s = some g) :
    labeledVal alts s = some (.fin (groupVal g)) := by
  unfold labeledVal
  rw [h]
  simp [pyFloat_numOk (searchFrom_numOk h)]

theorem labeledValE_ok (alts : List Text) (s : Text) :
    labeledValE alts s = .ok (labeledVal alts s) := by
  unfold labeledValE labeledVal
  cases h : searchFrom alts s with
  | none => rfl
  | some g =>
    show (match pyFloat g with
      | some v => Except.ok (some v)
      | none => Except.error ()) = Except.ok (some ((pyFloat g).getD (.fin 0)))
    rw [pyFloat_numOk (searchFrom_numOk h)]
    rfl

theorem parse_inputE_ok (text : Text) : parse_inputE text = .ok (parse_input text) := by
  unfold parse_inputE parse_input labeledSpec
  simp only [labeledValE_ok]
  cases labeledVal kwLengthAlts (normalize text) <;>
    cases labeledVal kwWidthAlts (normalize text) <;>
    cases labeledVal kwHeightAlts (normalize text) <;>
    cases labeledVal kwEnergyAlts (normalize text) <;>
    cases labeledVal kwVoltageAlts (normalize text) <;>
    rfl

/-! ## History-extension lemmas (append-only, non-system roles) -/

theorem analysisStage_extend (d : Json) (hist : List ChatEntry) :
    ∃ tail, (analysisStage d hist).2 = hist ++ tail ∧
      ∀ e ∈ tail, e.role = Role.user ∨ e.role = Role.assistant := by
  cases d with
  | jstr s =>
    refine ⟨[⟨.user, syntheticPrompt⟩, ⟨.assistant, s⟩], rfl, ?_⟩
    intro e he
    rcases List.mem_cons.mp he with rfl | he2
    · exact Or.inl rfl
    · rcases List.mem_cons.mp he2 with rfl | he3
      · exact Or.inr rfl
      · simp at he3
  | jobj ds =>
    cases hq : jlookup ds messageKey with
    | some m => exact ⟨[], by simp [analysisStage, hq], by simp⟩
    | none => exact ⟨[], by simp [analysisStage, hq], by simp⟩
  | null => exact ⟨[], by simp [analysisStage], by simp⟩
  | jbool b => exact ⟨[], by simp [analysisStage], by simp⟩
  | jnum q => exact ⟨[], by simp [analysisStage], by simp⟩
  | jarr xs => exact ⟨[], by simp [analysisStage], by simp⟩

theorem predictionBody_extend (data : Json) (hist : List ChatEntry) :
    ∃ tail, (predictionBody data hist).history = hist ++ tail ∧
      ∀ e ∈ tail, e.role = Role.user ∨ e.role = Role.assistant := by
  cases data with
  | jobj fs =>
    simp only [predictionBody]
    split
    · exact ⟨[], by simp, by simp⟩
    · cases hq : jlookup fs predictionsKey with
      | none => exact ⟨[], by simp, by simp⟩
      | some j =>
        cases j with
        | jobj ps =>
          dsimp only
          cases hc : coerceCell ps with
          | none => exact ⟨[], by simp, by simp⟩
          | some q =>
            obtain ⟨l2, w2, hgt2, pd2⟩ := q
            obtain ⟨tail, h1, h2⟩ :=
              analysisStage_extend ((jlookup fs deepseekKey).getD (.jstr [])) hist
            refine ⟨tail, ?_, h2⟩
            simp [h1]
        | null => exact ⟨[], by simp, by simp⟩
        | jbool b => exact ⟨[], by simp, by simp⟩
        | jnum q => exact ⟨[], by simp, by simp⟩
        | jstr s => exact ⟨[], by simp, by simp⟩
        | jarr xs => exact ⟨[], by simp, by simp⟩
  | null => exact ⟨[], by simp [predictionBody], by simp⟩
  | jbool b => exact ⟨[], by simp [predictionBody], by simp⟩
  | jnum q => exact ⟨[], by simp [predictionBody], by simp⟩
  | jstr s => exact ⟨[], by simp [predictionBody], by simp⟩
  | jarr xs => exact ⟨[], by simp [predictionBody], by simp⟩

theorem predictionTurn_extend (spec : PackSpec) (res : HttpResponse) (hist : List ChatEntry) :
    ∃ tail, (predictionTurn spec res hist).history = hist ++ tail ∧
      ∀ e ∈ tail, e.role = Role.user ∨ e.role = Role.assistant := by
  unfold predictionTurn
  split
  · exact ⟨[], by simp, by simp⟩
  · unfold parseBodyStage
    cases hj : res.json with
    | none => exact ⟨[], by simp, by simp⟩
    | some data => exact predictionBody_extend data hist

theorem followUpTurn_extend (t : Text) (completion : List ChatEntry → Except Text Text)
    (hist : List ChatEntry) :
    ∃ tail, (followUpTurn t completion hist).history = hist ++ tail ∧
      ∀ e ∈ tail, e.role = Role.user ∨ e.role = Role.assistant := by
  cases hc : completion (hist ++ [⟨.user, strip t⟩]) with
  | ok reply =>
    refine ⟨[⟨.user, strip t⟩, ⟨.assistant, reply⟩], ?_, ?_⟩
    · simp [followUpTurn, hc]
    · intro e he
      rcases List.mem_cons.mp he with rfl | he2
      · exact Or.inl rfl
      · rcases List.mem_cons.mp he2 with rfl | he3
        · exact Or.inr rfl
        · simp at he3
  | error err =>
    refine ⟨[⟨.user, strip t⟩], ?_, ?_⟩
    · simp [followUpTurn, hc]
    · intro e he
      rcases List.mem_cons.mp he with rfl | he2
      · exact Or.inl rfl
      · simp at he2

/-! ## Concrete-value evaluation lemmas -/

theorem decimalVal_digits (d : Text) (n : ℕ) (h : digitsToNat d = n) :
    decimalVal d [] = (n : ℚ) := by
  unfold decimalVal
  rw [h]
  norm_num [digitsToNat]

theorem applySign_false (q : ℚ) : applySign false q = q := rfl

theorem applySign_decimal (d : Text) (n : ℕ) (h : digitsToNat d = n) :
    applySign false (decimalVal d []) = (n : ℚ) := by
  rw [applySign_false, decimalVal_digits d n h]

/-! ## The claims -/

/-- C8: for every raw message text (including malformed, empty, or
non-numeric input) the parser terminates and returns either a `PackSpec`
or no match, and never raises: the exception-transparent variant
`parse_inputE`, in which the labeled path's `float(match.group(2))` is
allowed to raise, always returns `.ok` of exactly what `parse_input`
returns (every captured group has the shape `\d+(\.\d+)?`, on which
`float` cannot fail; the fallback's `ValueError` is caught). -/
theorem claim_C8 (text : Text) : parse_inputE text = .ok (parse_input text) :=
  parse_inputE_ok text

/-- C3: when labeled extraction does not find all five fields, the
positional fallback splits the normalized text on commas, strips and
parses each piece as a float, and yields the `PackSpec` in fixed
positional order (length, width, height, energy, voltage) exactly when
that parsing succeeds with exactly five values; with fewer or more than
five values (or an unparseable piece) the parser returns no match. -/
theorem claim_C3 (text : Text) (h : labeledSpec (normalize text) = none) :
    parse_input text = positionalSpec (normalize text) ∧
    (∀ a b c d e, fallbackNumbers (normalize text) = some [a, b, c, d, e] →
      parse_input text = some ⟨a, b, c, d, e⟩) ∧
    (∀ ns, fallbackNumbers (normalize text) = some ns → ns.length ≠ 5 →
      parse_input text = none) ∧
    (fallbackNumbers (normalize text) = none → parse_input text = none) := by
  have hp : parse_input text = positionalSpec (normalize text) := by
    unfold parse_input
    rw [h]
  refine ⟨hp, ?_, ?_, ?_⟩
  · intro a b c d e hf
    rw [hp]
    unfold positionalSpec
    rw [hf]
  · intro ns hf hlen
    rw [hp]
    unfold positionalSpec
    rw [hf]
    rcases ns with _ | ⟨a, _ | ⟨b, _ | ⟨c, _ | ⟨d, _ | ⟨e, _ | ⟨f, rest⟩⟩⟩⟩⟩⟩
    · rfl
    · rfl
    · rfl
    · rfl
    · rfl
    · exact absurd rfl hlen
    · rfl
  · intro hf
    rw [hp]
    unfold positionalSpec
    rw [hf]

/-- Witness for C3: the spec's positional example `"1000, 1600, 1500,
60, 400"` has no labeled fields, parses to exactly five values, and
yields the `PackSpec` in positional order. -/
theorem claim_C3_witness :
    labeledSpec (normalize csvText) = none ∧
    parse_input csvText = some ⟨.fin ((1000 : ℕ) : ℚ), .fin ((1600 : ℕ) : ℚ),
      .fin ((1500 : ℕ) : ℚ), .fin ((60 : ℕ) : ℚ), .fin ((400 : ℕ) : ℚ)⟩ := by
  have hlab : labeledSpec (normalize csvText) = none := by decide
  have hf : fallbackNumbers (normalize csvText) = some
      [.fin (applySign false (decimalVal (("1000").data) [])),
       .fin (applySign false (decimalVal (("1600").data) [])),
       .fin (applySign false (decimalVal (("1500").data) [])),
       .fin (applySign false (decimalVal (("60").data) [])),
       .fin (applySign false (decimalVal (("400").data) []))] := rfl
  refine ⟨hlab, ?_⟩
  have := (claim_C3 csvText hlab).2.1 _ _ _ _ _ hf
  rw [this, applySign_decimal (("1000").data) 1000 rfl,
      applySign_decimal (("1600").data) 1600 rfl,
      applySign_decimal (("1500").data) 1500 rfl,
      applySign_decimal (("60").data) 60 rfl,
      applySign_decimal (("400").data) 400 rfl]

/-- C10 (implicit): the labeled keyword patterns capture only an
unsigned number, so every labeled-extracted value is a nonnegative
finite float — in particular `"length -1000"` extracts `1000.0`, the
minus sign being consumed by the `\D*` separator — whereas the
positional fallback does accept negative numbers. -/
theorem claim_C10 :
    (∀ alts s v, labeledVal alts s = some v → ∃ q : ℚ, v = .fin q ∧ 0 ≤ q) ∧
    parse_input negLabeledText = some ⟨.fin ((1000 : ℕ) : ℚ), .fin ((1600 : ℕ) : ℚ),
      .fin ((1500 : ℕ) : ℚ), .fin ((60 : ℕ) : ℚ), .fin ((400 : ℕ) : ℚ)⟩ ∧
    parse_input negCsvText = some ⟨.fin (-((1 : ℕ) : ℚ)),
      .fin (-(decimalVal (("2").data) (("5").data))), .fin ((3 : ℕ) : ℚ),
      .fin ((4 : ℕ) : ℚ), .fin ((5 : ℕ) : ℚ)⟩ := by
  refine ⟨?_, ?_, ?_⟩
  · intro alts s v hv
    unfold labeledVal at hv
    cases hs : searchFrom alts s with
    | none =>
      rw [hs] at hv
      cases hv
    | some g =>
      rw [hs] at hv
      simp only [Option.map_some'] at hv
      rw [pyFloat_numOk (searchFrom_numOk hs)] at hv
      simp only [Option.getD_some] at hv
      injection hv with hv
      exact ⟨groupVal g, hv.symm, groupVal_nonneg g⟩
  · have hb : parse_input negLabeledText = some
        ⟨.fin (applySign false (decimalVal (("1000").data) [])),
         .fin (applySign false (decimalVal (("1600").data) [])),
         .fin (applySign false (decimalVal (("1500").data) [])),
         .fin (applySign false (decimalVal (("60").data) [])),
         .fin (applySign false (decimalVal (("400").data) []))⟩ := rfl
    rw [hb, applySign_decimal (("1000").data) 1000 rfl,
        applySign_decimal (("1600").data) 1600 rfl,
        applySign_decimal (("1500").data) 1500 rfl,
        applySign_decimal (("60").data) 60 rfl,
        applySign_decimal (("400").data) 400 rfl]
  · have hb : parse_input negCsvText = some
        ⟨.fin (applySign true (decimalVal (("1").data) [])),
         .fin (applySign true (decimalVal (("2").data) (("5").data))),
         .fin (applySign false (decimalVal (("3").data) [])),
         .fin (applySign false (decimalVal (("4").data) [])),
         .fin (applySign false (decimalVal (("5").data) []))⟩ := rfl
    rw [hb]
    show some (⟨.fin (-(decimalVal (("1").data) [])),
      .fin (-(decimalVal (("2").data) (("5").data))),
      .fin (applySign false (decimalVal (("3").data) [])),
      .fin (applySign false (decimalVal (("4").data) [])),
      .fin (applySign false (decimalVal (("5").data) []))⟩ : PackSpec) = _
    rw [decimalVal_digits (("1").data) 1 rfl,
        applySign_decimal (("3").data) 3 rfl,
        applySign_decimal (("4").data) 4 rfl,
        applySign_decimal (("5").data) 5 rfl]

/-- Witness for C10: a labeled capture is a nonnegative finite value at
a concrete input. -/
theorem claim_C10_witness :
    ∃ q : ℚ, PyFloat.fin (applySign false (decimalVal (("7").data) [])) = .fin q ∧ 0 ≤ q :=
  claim_C10.1 kwLengthAlts (("length 7").data)
    (.fin (applySign false (decimalVal (("7").data) []))) rfl

/-- C4: for every choice of the five keyword alternatives, every five
captured number texts, and every arrangement `l` of the five labeled
fields (written keyword, space, number, space), the parser returns the
`PackSpec` built from those labeled values — the same record regardless
of the order in which the labeled fields appear in the text. -/
theorem claim_C4 (ch nums : Fin 5 → Text) (l : List (Fin 5))
    (hch : ∀ i, ch i ∈ fieldAlts i) (hnum : ∀ i, numOkB (nums i) = true)
    (hl : ∀ i, i ∈ l) :
    parse_input (joinB ch nums l) =
      some ⟨.fin (groupVal (nums 0)), .fin (groupVal (nums 1)), .fin (groupVal (nums 2)),
            .fin (groupVal (nums 3)), .fin (groupVal (nums 4))⟩ := by
  unfold parse_input
  rw [normalize_joinB hch hnum]
  have hs0 : labeledVal kwLengthAlts (joinB ch nums l) = some (.fin (groupVal (nums 0))) :=
    labeledVal_eq_groupVal (searchFrom_joinB hch hnum l 0 (hl 0))
  have hs1 : labeledVal kwWidthAlts (joinB ch nums l) = some (.fin (groupVal (nums 1))) :=
    labeledVal_eq_groupVal (searchFrom_joinB hch hnum l 1 (hl 1))
  have hs2 : labeledVal kwHeightAlts (joinB ch nums l) = some (.fin (groupVal (nums 2))) :=
    labeledVal_eq_groupVal (searchFrom_joinB hch hnum l 2 (hl 2))
  have hs3 : labeledVal kwEnergyAlts (joinB ch nums l) = some (.fin (groupVal (nums 3))) :=
    labeledVal_eq_groupVal (searchFrom_joinB hch hnum l 3 (hl 3))
  have hs4 : labeledVal kwVoltageAlts (joinB ch nums l) = some (.fin (groupVal (nums 4))) :=
    labeledVal_eq_groupVal (searchFrom_joinB hch hnum l 4 (hl 4))
  unfold labeledSpec
  rw [hs0, hs1, hs2, hs3, hs4]

/-- Witness for C4: the spec's reordered example text
`"voltage 400 energy 60 height 1500 width 1600 length 1000"` (with the
primary keywords, in reversed field order) yields the same `PackSpec`
as the in-order text. -/
theorem claim_C4_witness :
    joinB kwPrimary nums5 ordRev =
      ("voltage 400 energy 60 height 1500 width 1600 length 1000 ").data ∧
    parse_input (joinB kwPrimary nums5 ordRev) =
      some ⟨.fin ((1000 : ℕ) : ℚ), .fin ((1600 : ℕ) : ℚ), .fin ((1500 : ℕ) : ℚ),
            .fin ((60 : ℕ) : ℚ), .fin ((400 : ℕ) : ℚ)⟩ := by
  refine ⟨by decide, ?_⟩
  have := claim_C4 kwPrimary nums5 ordRev (by decide) (by decide) (by decide)
  rw [this]
  show some (⟨.fin (decimalVal (("1000").data) []), .fin (decimalVal (("1600").data) []),
    .fin (decimalVal (("1500").data) []), .fin (decimalVal (("60").data) []),
    .fin (decimalVal (("400").data) [])⟩ : PackSpec) = _
  rw [decimalVal_digits (("1000").data) 1000 rfl, decimalVal_digits (("1600").data) 1600 rfl,
      decimalVal_digits (("1500").data) 1500 rfl, decimalVal_digits (("60").data) 60 rfl,
      decimalVal_digits (("400").data) 400 rfl]

/-! ## Turn-handler lemmas and claims -/

theorem analysisStage_invalid {ds : Json} (h7 : ∀ s, ds ≠ .jstr s)
    (h8 : ∀ ms, ds = .jobj ms → jlookup ms messageKey = none) (hist : List ChatEntry) :
    analysisStage ds hist = ([.sendMsg invalidAnalysisContent none], hist) := by
  cases ds with
  | jstr s => exact absurd rfl (h7 s)
  | jobj ms =>
    unfold analysisStage
    dsimp only
    rw [h8 ms rfl]
  | null => rfl
  | jbool b => rfl
  | jnum q => rfl
  | jarr xs => rfl

theorem predictionBody_success {fs ps : List (Text × Json)} {l w h pd : PyFloat}
    (h3 : jlookup fs predictionsKey = some (.jobj ps)) (h4 : ps ≠ [])
    (h5 : coerceCell ps = some (l, w, h, pd)) (hist : List ChatEntry) :
    predictionBody (.jobj fs) hist =
      ⟨preEvents ++ [.cancelIndicator, .removeStatus, .sendPredSummary l w h pd] ++
        (analysisStage ((jlookup fs deepseekKey).getD (.jstr [])) hist).1,
       (analysisStage ((jlookup fs deepseekKey).getD (.jstr [])) hist).2,
       .predictionRendered⟩ := by
  simp only [predictionBody]
  rw [h3]
  simp only [Option.getD_some]
  have hps : (Json.jobj ps).truthy = true := by
    unfold Json.truthy
    simpa using h4
  rw [hps, if_neg (by simp)]
  rw [h5]

/-- C1 counterexample: on HTTP status 201 — a 2xx status — the code
takes the error path (it tests `status != 200`), so "fails if and only
if the status is non-2xx" is false as stated. -/
theorem claim_C1_counterexample :
    res201.status = 201 ∧ 200 ≤ res201.status ∧ res201.status < 300 ∧
    (predictionTurn spec0 res201 []).outcome = .failure ∧
    predictionTurn spec0 res201 [] =
      ⟨preEvents ++ [.cancelIndicator,
        .replaceStatus (statusErrorContent 201 (("created").data))], [], .failure⟩ :=
  ⟨rfl, by decide, by decide, rfl, rfl⟩

/-- C1 (amended: the HTTP step fails if and only if the status is not
exactly 200, not "non-2xx"): on any non-200 status the orchestrator
cancels the indicator, replaces the status message with an error
containing the numeric status code and the raw response body, and ends
the turn as a failure with the history untouched; on status 200 it
proceeds to parse the body. -/
theorem claim_C1 (spec : PackSpec) (res : HttpResponse) (hist : List ChatEntry) :
    (res.status ≠ 200 →
      predictionTurn spec res hist =
        ⟨preEvents ++ [.cancelIndicator,
          .replaceStatus (statusErrorContent res.status res.text)], hist, .failure⟩ ∧
      occursInB (natToText res.status) (statusErrorContent res.status res.text) = true ∧
      occursInB res.text (statusErrorContent res.status res.text) = true) ∧
    (res.status = 200 → predictionTurn spec res hist = parseBodyStage res hist) := by
  constructor
  · intro h
    refine ⟨?_, ?_, ?_⟩
    · unfold predictionTurn
      rw [if_pos h]
    · unfold statusErrorContent
      have := occursInB_append_left (("❌ API call failed.\n\n**Status Code:** ").data)
        (natToText res.status)
        ((("\n```json\n").data) ++ (res.text ++ (("\n```").data)))
      simpa [List.append_assoc] using this
    · unfold statusErrorContent
      have := occursInB_append_left
        ((("❌ API call failed.\n\n**Status Code:** ").data) ++ natToText res.status ++
          (("\n```json\n").data)) res.text (("\n```").data)
      simpa [List.append_assoc] using this
  · intro h
    unfold predictionTurn
    rw [if_neg (by simp [h])]

/-- Witness for C1: a 404 takes the error path with the rendered
status-code message; a 200 whose body is unparseable still proceeds to
the body stage. -/
theorem claim_C1_witness :
    res404.status ≠ 200 ∧
    predictionTurn spec0 res404 [] =
      ⟨preEvents ++ [.cancelIndicator,
        .replaceStatus (statusErrorContent 404 (("not found").data))], [], .failure⟩ ∧
    res200bad.status = 200 ∧
    predictionTurn spec0 res200bad [] = parseBodyStage res200bad [] := by
  refine ⟨by decide, ?_, rfl, ?_⟩
  · exact ((claim_C1 spec0 res404 []).1 (by decide)).1
  · exact (claim_C1 spec0 res200bad []).2 rfl

/-- C6: on HTTP 500 the orchestrator emits an error message containing
the literal digits 500 and leaves the conversation history exactly as
it was. -/
theorem claim_C6 (spec : PackSpec) (res : HttpResponse) (hist : List ChatEntry)
    (h : res.status = 500) :
    ∃ c, predictionTurn spec res hist =
        ⟨preEvents ++ [.cancelIndicator, .replaceStatus c], hist, .failure⟩ ∧
      occursInB (("500").data) c = true ∧
      (predictionTurn spec res hist).history = hist := by
  have hne : res.status ≠ 200 := by omega
  have hrun : predictionTurn spec res hist =
      ⟨preEvents ++ [.cancelIndicator,
        .replaceStatus (statusErrorContent res.status res.text)], hist, .failure⟩ := by
    unfold predictionTurn
    rw [if_pos hne]
  refine ⟨statusErrorContent res.status res.text, hrun, ?_, by rw [hrun]⟩
  rw [h]
  unfold statusErrorContent
  have hocc := occursInB_append_left (("❌ API call failed.\n\n**Status Code:** ").data)
    (("500").data) ((("\n```json\n").data) ++ (res.text ++ (("\n```").data)))
  have hnat : natToText 500 = ("500").data := by decide
  rw [hnat]
  simpa [List.append_assoc] using hocc

/-- Witness for C6: the concrete 500 response. -/
theorem claim_C6_witness :
    res500.status = 500 ∧
    ∃ c, predictionTurn spec0 res500 [] =
        ⟨preEvents ++ [.cancelIndicator, .replaceStatus c], [], .failure⟩ ∧
      occursInB (("500").data) c = true ∧
      (predictionTurn spec0 res500 []).history = [] :=
  ⟨rfl, claim_C6 spec0 res500 [] rfl⟩

/-- C2 counterexample: when `deepseek_analysis` is absent, `data.get`
defaults it to the empty string, which is a string — so the code
appends the synthetic pair (with an empty assistant turn) and never
emits the "did not return a valid analysis" notice, contradicting the
claim's "absent" case. -/
theorem claim_C2_counterexample :
    jlookup [(predictionsKey, Json.jobj predsOk)] deepseekKey = none ∧
    (predictionTurn spec0 resAbsent []).history =
      [⟨.user, syntheticPrompt⟩, ⟨.assistant, []⟩] ∧
    mentionsInvalidAnalysis (predictionTurn spec0 resAbsent []).events = false :=
  ⟨rfl, rfl, rfl⟩

/-- C2 (amended: only a *present* `deepseek_analysis` field of
unrecognized shape — neither a string nor an object containing a
`message` key — produces the generic "did not return a valid analysis"
notice with no history change; an absent field is treated as the empty
string and takes the string branch instead). -/
theorem claim_C2 (spec : PackSpec) (res : HttpResponse) (hist : List ChatEntry)
    (fs ps : List (Text × Json)) (ds : Json) (l w h pd : PyFloat)
    (h1 : res.status = 200) (h2 : res.json = some (.jobj fs))
    (h3 : jlookup fs predictionsKey = some (.jobj ps)) (h4 : ps ≠ [])
    (h5 : coerceCell ps = some (l, w, h, pd))
    (h6 : jlookup fs deepseekKey = some ds)
    (h7 : ∀ s, ds ≠ .jstr s)
    (h8 : ∀ ms, ds = .jobj ms → jlookup ms messageKey = none) :
    predictionTurn spec res hist =
      ⟨preEvents ++ [.cancelIndicator, .removeStatus, .sendPredSummary l w h pd,
        .sendMsg invalidAnalysisContent none], hist, .predictionRendered⟩ := by
  have hb := predictionBody_success h3 h4 h5 hist
  rw [h6] at hb
  simp only [Option.getD_some] at hb
  rw [analysisStage_invalid h7 h8 hist] at hb
  unfold predictionTurn
  rw [if_neg (by simp [h1])]
  unfold parseBodyStage
  rw [h2]
  show predictionBody (.jobj fs) hist = _
  rw [hb]
  simp

/-- Witness for C2: a numeric `deepseek_analysis` field yields the
generic notice and leaves the history unchanged. -/
theorem claim_C2_witness :
    predictionTurn spec0 resNum [] =
      ⟨preEvents ++ [.cancelIndicator, .removeStatus,
        .sendPredSummary (.fin 220) (.fin 80) (.fin 100) (.fin (35 / 2)),
        .sendMsg invalidAnalysisContent none], [], .predictionRendered⟩ :=
  claim_C2 spec0 resNum [] [(predictionsKey, .jobj predsOk), (deepseekKey, .jnum 3)]
    predsOk (.jnum 3) (.fin 220) (.fin 80) (.fin 100) (.fin (35 / 2))
    rfl rfl rfl (by simp [predsOk]) rfl rfl
    (by intro s hcon; cases hcon) (by intro ms hcon; cases hcon)

/-- C5: a string `deepseek_analysis` (for example `"Great pack!"`)
appends exactly the synthetic user turn and the string as an assistant
turn to the history, and emits the string as a distinct
`"DeepSeek AI"`-authored message. -/
theorem claim_C5 (spec : PackSpec) (res : HttpResponse) (hist : List ChatEntry)
    (fs ps : List (Text × Json)) (s : Text) (l w h pd : PyFloat)
    (h1 : res.status = 200) (h2 : res.json = some (.jobj fs))
    (h3 : jlookup fs predictionsKey = some (.jobj ps)) (h4 : ps ≠ [])
    (h5 : coerceCell ps = some (l, w, h, pd))
    (h6 : jlookup fs deepseekKey = some (.jstr s)) :
    predictionTurn spec res hist =
      ⟨preEvents ++ [.cancelIndicator, .removeStatus, .sendPredSummary l w h pd,
        .sendMsg s (some dsAuthor)],
       hist ++ [⟨.user, syntheticPrompt⟩, ⟨.assistant, s⟩], .predictionRendered⟩ := by
  have hb := predictionBody_success h3 h4 h5 hist
  rw [h6] at hb
  simp only [Option.getD_some] at hb
  rw [show analysisStage (.jstr s) hist =
    ([.sendMsg s (some dsAuthor)],
     hist ++ [⟨.user, syntheticPrompt⟩, ⟨.assistant, s⟩]) from rfl] at hb
  unfold predictionTurn
  rw [if_neg (by simp [h1])]
  unfold parseBodyStage
  rw [h2]
  show predictionBody (.jobj fs) hist = _
  rw [hb]
  simp

/-- Witness for C5: the concrete `"Great pack!"` response. -/
theorem claim_C5_witness :
    predictionTurn spec0 resGreat [] =
      ⟨preEvents ++ [.cancelIndicator, .removeStatus,
        .sendPredSummary (.fin 220) (.fin 80) (.fin 100) (.fin (35 / 2)),
        .sendMsg greatPack (some dsAuthor)],
       [⟨.user, syntheticPrompt⟩, ⟨.assistant, greatPack⟩], .predictionRendered⟩ :=
  claim_C5 spec0 resGreat [] [(predictionsKey, .jobj predsOk), (deepseekKey, .jstr greatPack)]
    predsOk greatPack (.fin 220) (.fin 80) (.fin 100) (.fin (35 / 2))
    rfl rfl rfl (by simp [predsOk]) rfl rfl

/-- C7: on a non-spec turn whose completion call fails, the history
gains only the user turn (no assistant entry) and the reply shown is a
formatted error string embedding the failure detail; in both the
success and failure cases the indicator is cancelled and the status
message removed before the final reply is sent. -/
theorem claim_C7 (text : Text) (env : TurnEnv) (hist : List ChatEntry)
    (hparse : parse_input text = none) :
    (∀ err, env.completion (hist ++ [⟨.user, strip text⟩]) = .error err →
      handle_message text env hist =
        ⟨[.sendMsg thinkingContent none, .startIndicator thinkingContent, .cancelIndicator,
          .removeStatus, .sendMsg (followUpErrorContent err) (some dsAuthor)],
         hist ++ [⟨.user, strip text⟩], .chatReply⟩ ∧
      occursInB err (followUpErrorContent err) = true) ∧
    (∀ reply, env.completion (hist ++ [⟨.user, strip text⟩]) = .ok reply →
      handle_message text env hist =
        ⟨[.sendMsg thinkingContent none, .startIndicator thinkingContent, .cancelIndicator,
          .removeStatus, .sendMsg reply (some dsAuthor)],
         hist ++ [⟨.user, strip text⟩, ⟨.assistant, reply⟩], .chatReply⟩) := by
  have hm : handle_message text env hist = followUpTurn text env.completion hist := by
    unfold handle_message
    rw [hparse]
  constructor
  · intro err he
    constructor
    · rw [hm]
      unfold followUpTurn
      rw [he]
    · unfold followUpErrorContent
      have := occursInB_append_left (("❌ DeepSeek follow-up failed:\n```text\n").data)
        err (("```").data)
      simpa [List.append_assoc] using this
  · intro reply he
    rw [hm]
    unfold followUpTurn
    rw [he]
    simp

/-- Witness for C7: a failing completion call at a concrete non-spec
message. -/
theorem claim_C7_witness :
    parse_input helloText = none ∧
    handle_message helloText envErr [] =
      ⟨[.sendMsg thinkingContent none, .startIndicator thinkingContent, .cancelIndicator,
        .removeStatus, .sendMsg (followUpErrorContent (("boom").data)) (some dsAuthor)],
       [⟨.user, helloText⟩], .chatReply⟩ := by
  refine ⟨by decide, ?_⟩
  exact ((claim_C7 helloText envErr [] (by decide)).1 (("boom").data) rfl).1

/-- C9: every turn only appends entries of role user or assistant to
the history; consequently the seeded system entry stays first and the
number of system entries never changes. -/
theorem claim_C9 (text : Text) (env : TurnEnv) (hist : List ChatEntry) :
    ∃ tail, (handle_message text env hist).history = hist ++ tail ∧
      (∀ e ∈ tail, e.role = Role.user ∨ e.role = Role.assistant) ∧
      (hist.head? = some ⟨Role.system, systemPrompt⟩ →
        (handle_message text env hist).history.head? = some ⟨Role.system, systemPrompt⟩) ∧
      countSystem (handle_message text env hist).history = countSystem hist := by
  obtain ⟨tail, h1, h2⟩ : ∃ tail, (handle_message text env hist).history = hist ++ tail ∧
      ∀ e ∈ tail, e.role = Role.user ∨ e.role = Role.assistant := by
    unfold handle_message
    cases parse_input text with
    | some spec => exact predictionTurn_extend spec (env.predict spec) hist
    | none => exact followUpTurn_extend text env.completion hist
  refine ⟨tail, h1, h2, ?_, ?_⟩
  · intro hh
    rw [h1]
    cases hist with
    | nil => exact Option.noConfusion hh
    | cons x hs =>
      rw [List.cons_append]
      simpa using hh
  · rw [h1]
    unfold countSystem
    rw [List.countP_append]
    have hz : List.countP (fun e => decide (e.role = Role.system)) tail = 0 := by
      rw [List.countP_eq_zero]
      intro e he
      rcases h2 e he with hr | hr <;> simp [hr]
    omega

/-- Witness for C9: a concrete follow-up turn starting from the seeded
history keeps the system entry first and unique. -/
theorem claim_C9_witness :
    (handle_message helloText envOk chat_history).history.head? =
      some ⟨Role.system, systemPrompt⟩ ∧
    countSystem (handle_message helloText envOk chat_history).history =
      countSystem chat_history := by
  obtain ⟨tail, h1, h2, h3, h4⟩ := claim_C9 helloText envOk chat_history
  exact ⟨h3 rfl, h4⟩

end GGpt
